import Mathlib

set_option maxRecDepth 10000

/-!
Shallow embedding of the vbh-tracker data pipeline
(`scripts/update-data.mjs`, `scripts/fetch-marketplace.mjs` and the
alternate script variants) together with proofs about its merge,
deduplication, date-spreading, currency-conversion, extraction and
snapshot-sampling logic.

Modelling conventions:
* JS numbers holding price amounts and FX rates are modelled as exact
  rationals (`Rat`).  The amounts arising in the data are short decimal
  literals, for which JS double arithmetic agrees with exact rational
  arithmetic on the operations used here (comparisons, `toFixed(2)`
  rounding, single multiplications).  `Rat.mul`/`Rat.add` are marked
  irreducible upstream, so the embedding uses the kernel-reducible
  wrappers `ratMul`/`ratAdd` (proved equal to `*`/`+`).
* `Number.prototype.toString`, used when amounts are interpolated into
  the template-literal dedup keys, is modelled by `ratKey`; like the JS
  rendering it is injective and never produces the separator character,
  which is all the development relies on.
* `String.prototype.localeCompare`, applied to ISO date strings, is
  modelled as lexicographic comparison of the underlying char lists.
* `Array.prototype.sort` (stable per ES2019) is modelled by the stable
  `List.insertionSort`.
* JS `Set` objects are modelled as lists of already-seen keys; a JS
  `Map` used for grouping (insertion-ordered keys, values in encounter
  order) is modelled as the list of first-occurrence keys paired with
  filters.
-/

namespace VBH

/-! ### Decimal rendering of numbers (model of JS template interpolation) -/

/-- Character for one decimal digit (all uses are guarded by `d < 10`). -/
def digitChar : Nat → Char
  | 0 => '0'
  | 1 => '1'
  | 2 => '2'
  | 3 => '3'
  | 4 => '4'
  | 5 => '5'
  | 6 => '6'
  | 7 => '7'
  | 8 => '8'
  | _ => '9'

/-- Numeric value of a decimal digit character, `none` on non-digits. -/
def digitVal? (c : Char) : Option Nat :=
  if c = '0' then some 0
  else if c = '1' then some 1
  else if c = '2' then some 2
  else if c = '3' then some 3
  else if c = '4' then some 4
  else if c = '5' then some 5
  else if c = '6' then some 6
  else if c = '7' then some 7
  else if c = '8' then some 8
  else if c = '9' then some 9
  else none

/-- Decimal digits of `n`, most significant first (fuel-based so that the
kernel can evaluate it). -/
def natDigitsAux : Nat → Nat → List Nat
  | 0, _ => []
  | fuel + 1, n => if n < 10 then [n] else natDigitsAux fuel (n / 10) ++ [n % 10]

/-- Value of a most-significant-first digit list. -/
def digitsVal (l : List Nat) : Nat := l.foldl (fun a d => 10 * a + d) 0

theorem digitsVal_append_one (xs : List Nat) (y : Nat) :
    digitsVal (xs ++ [y]) = 10 * digitsVal xs + y := by
  simp [digitsVal, List.foldl_append]

theorem digitsVal_natDigitsAux :
    ∀ (fuel n : Nat), n ≤ fuel → digitsVal (natDigitsAux (fuel + 1) n) = n := by
  intro fuel
  induction fuel with
  | zero =>
    intro n hn
    interval_cases n
    simp [natDigitsAux, digitsVal]
  | succ f ih =>
    intro n hn
    rw [show natDigitsAux (f + 1 + 1) n
        = if n < 10 then [n] else natDigitsAux (f + 1) (n / 10) ++ [n % 10] from rfl]
    by_cases h : n < 10
    · simp [h, digitsVal]
    · rw [if_neg h, digitsVal_append_one, ih (n / 10) (by omega)]
      omega

theorem natDigitsAux_lt_ten :
    ∀ (fuel n d : Nat), d ∈ natDigitsAux fuel n → d < 10 := by
  intro fuel
  induction fuel with
  | zero => intro n d hd; simp [natDigitsAux] at hd
  | succ f ih =>
    intro n d hd
    by_cases h : n < 10
    · simp [natDigitsAux, h] at hd; omega
    · simp only [natDigitsAux, if_neg h, List.mem_append, List.mem_singleton] at hd
      rcases hd with hd | hd
      · exact ih _ _ hd
      · omega

theorem natDigitsAux_ne_nil (n : Nat) : natDigitsAux (n + 1) n ≠ [] := by
  by_cases h : n < 10 <;> simp [natDigitsAux, h]

/-- Decimal rendering of a natural number. -/
def natStr (n : Nat) : String := String.mk ((natDigitsAux (n + 1) n).map digitChar)

theorem digitChar_inj :
    ∀ a, a < 10 → ∀ b, b < 10 → digitChar a = digitChar b → a = b := by decide

theorem digitChar_ne :
    ∀ a, a < 10 → digitChar a ≠ '|' ∧ digitChar a ≠ '/' ∧ digitChar a ≠ '-' := by decide

theorem map_digitChar_inj :
    ∀ (xs ys : List Nat), (∀ x ∈ xs, x < 10) → (∀ y ∈ ys, y < 10) →
      xs.map digitChar = ys.map digitChar → xs = ys := by
  intro xs
  induction xs with
  | nil => intro ys _ _ h; cases ys <;> simp_all
  | cons x xs ih =>
    intro ys hx hy h
    cases ys with
    | nil => simp at h
    | cons y ys =>
      simp only [List.map_cons, List.cons.injEq] at h
      have hxy : x = y :=
        digitChar_inj x (hx x (by simp)) y (hy y (by simp)) h.1
      have := ih ys (fun a ha => hx a (by simp [ha])) (fun a ha => hy a (by simp [ha])) h.2
      simp [hxy, this]

theorem natStr_inj {a b : Nat} (h : natStr a = natStr b) : a = b := by
  have hdata : (natDigitsAux (a + 1) a).map digitChar
      = (natDigitsAux (b + 1) b).map digitChar := congrArg String.data h
  have hlists := map_digitChar_inj _ _
    (fun x hx => natDigitsAux_lt_ten _ _ _ hx)
    (fun y hy => natDigitsAux_lt_ten _ _ _ hy) hdata
  have ha := digitsVal_natDigitsAux a a le_rfl
  have hb := digitsVal_natDigitsAux b b le_rfl
  rw [← ha, ← hb, hlists]

theorem natStr_chars {n : Nat} {c : Char} (hc : c ∈ (natStr n).data) :
    c ≠ '|' ∧ c ≠ '/' ∧ c ≠ '-' := by
  have hc2 : c ∈ (natDigitsAux (n + 1) n).map digitChar := hc
  rw [List.mem_map] at hc2
  obtain ⟨d, hd, rfl⟩ := hc2
  exact digitChar_ne d (natDigitsAux_lt_ten _ _ _ hd)

theorem natStr_ne_nil (n : Nat) : (natStr n).data ≠ [] := by
  simpa [natStr] using natDigitsAux_ne_nil n

/-- Decimal rendering of an integer. -/
def intStr (i : Int) : String :=
  if i < 0 then "-" ++ natStr i.natAbs else natStr i.natAbs

theorem intStr_chars {i : Int} {c : Char} (hc : c ∈ (intStr i).data) :
    c ≠ '|' ∧ c ≠ '/' := by
  by_cases h : i < 0
  · simp only [intStr, if_pos h, String.data_append] at hc
    rcases List.mem_append.mp hc with hc | hc
    · have : c = '-' := by simpa using hc
      subst this
      exact ⟨by decide, by decide⟩
    · exact ⟨(natStr_chars hc).1, (natStr_chars hc).2.1⟩
  · simp only [intStr, if_neg h] at hc
    exact ⟨(natStr_chars hc).1, (natStr_chars hc).2.1⟩

theorem intStr_inj {a b : Int} (h : intStr a = intStr b) : a = b := by
  have hdata : (intStr a).data = (intStr b).data := by rw [h]
  by_cases ha : a < 0 <;> by_cases hb : b < 0
  · simp only [intStr, if_pos ha, if_pos hb, String.data_append] at hdata
    have : natStr a.natAbs = natStr b.natAbs := by
      apply String.ext
      simpa using hdata
    have := natStr_inj this
    omega
  · exfalso
    simp only [intStr, if_pos ha, if_neg hb, String.data_append] at hdata
    have hne := natStr_ne_nil b.natAbs
    cases hd : (natStr b.natAbs).data with
    | nil => exact hne hd
    | cons c cs =>
      rw [hd] at hdata
      have : ('-' : Char) = c := by
        have : ('-' :: (natStr a.natAbs).data : List Char) = c :: cs := by
          simpa using hdata
        exact (List.cons.injEq _ _ _ _).mp this |>.1
      have hcmem : c ∈ (natStr b.natAbs).data := by rw [hd]; simp
      exact (natStr_chars hcmem).2.2 this.symm
  · exfalso
    simp only [intStr, if_neg ha, if_pos hb, String.data_append] at hdata
    have hne := natStr_ne_nil a.natAbs
    cases hd : (natStr a.natAbs).data with
    | nil => exact hne hd
    | cons c cs =>
      rw [hd] at hdata
      have : c = '-' := by
        have : (c :: cs : List Char) = '-' :: (natStr b.natAbs).data := by
          simpa using hdata
        exact (List.cons.injEq _ _ _ _).mp this |>.1
      have hcmem : c ∈ (natStr a.natAbs).data := by rw [hd]; simp
      exact (natStr_chars hcmem).2.2 this
  · simp only [intStr, if_neg ha, if_neg hb] at h
    have := natStr_inj h
    omega

/-! ### Separator-injectivity for joined keys -/

theorem append_sep_inj (sep : Char) :
    ∀ (a c b d : List Char), sep ∉ a → sep ∉ c →
      a ++ sep :: b = c ++ sep :: d → a = c ∧ b = d := by
  intro a
  induction a with
  | nil =>
    intro c b d _ hc h
    cases c with
    | nil => simpa using h
    | cons x xs =>
      exfalso
      simp only [List.nil_append, List.cons_append, List.cons.injEq] at h
      exact hc (h.1 ▸ List.mem_cons_self x xs)
  | cons x xs ih =>
    intro c b d ha hc h
    cases c with
    | nil =>
      exfalso
      simp only [List.cons_append, List.nil_append, List.cons.injEq] at h
      exact ha (h.1 ▸ List.mem_cons_self x xs)
    | cons y ys =>
      simp only [List.cons_append, List.cons.injEq] at h
      obtain ⟨rfl, h2⟩ := h
      have hxs : sep ∉ xs := fun hm => ha (List.mem_cons_of_mem _ hm)
      have hys : sep ∉ ys := fun hm => hc (List.mem_cons_of_mem _ hm)
      obtain ⟨h3, h4⟩ := ih ys b d hxs hys h2
      exact ⟨by rw [h3], h4⟩

/-! ### Exact model of `Number((x).toFixed(2))` and reducible Rat arithmetic -/

/-- Kernel-reducible rational multiplication (upstream `Rat.mul` is marked
irreducible, which blocks `decide` on concrete runs of the pipeline). -/
def ratMul (a b : Rat) : Rat := mkRat (a.num * b.num) (a.den * b.den)

/-- Kernel-reducible rational addition. -/
def ratAdd (a b : Rat) : Rat := mkRat (a.num * b.den + b.num * a.den) (a.den * b.den)

theorem ratMul_eq (a b : Rat) : ratMul a b = a * b := by
  rw [ratMul, Rat.mkRat_eq_div]
  push_cast
  rw [← div_mul_div_comm, Rat.num_div_den, Rat.num_div_den]

theorem ratAdd_eq (a b : Rat) : ratAdd a b = a + b := by
  have h1 : ((a.den : Rat)) ≠ 0 := by positivity
  have h2 : ((b.den : Rat)) ≠ 0 := by positivity
  rw [ratAdd, Rat.mkRat_eq_div]
  push_cast
  rw [show ((a.num : Rat) * b.den + (b.num : Rat) * a.den)
      = (a.num * b.den + a.den * b.num) by ring]
  rw [← div_add_div _ _ h1 h2, Rat.num_div_den, Rat.num_div_den]

/-- Model of `Number((x).toFixed(2))` on exact decimals: round to the nearest
multiple of 1/100, ties towards the larger value (ECMA `toFixed`). -/
def round2 (x : Rat) : Rat := mkRat ⌊ratAdd (ratMul x 100) (mkRat 1 2)⌋ 100

theorem round2_eq (x : Rat) : round2 x = mkRat ⌊x * 100 + mkRat 1 2⌋ 100 := by
  rw [round2, ratAdd_eq, ratMul_eq]

/-- Amounts that are a whole number of cents are fixed points of `round2`. -/
theorem round2_cents {x : Rat} (h : (x * 100).den = 1) : round2 x = x := by
  rw [round2_eq]
  have hx : ((x * 100).num : Rat) = x * 100 := by
    rw [← Rat.den_eq_one_iff]; exact h
  have hfloor : ⌊x * 100 + mkRat 1 2⌋ = (x * 100).num := by
    rw [← hx]
    have : (mkRat 1 2 : Rat) = 1 / 2 := by norm_num [Rat.mkRat_eq_div]
    rw [this, add_comm, Int.floor_add_int]
    norm_num
  rw [hfloor, Rat.mkRat_eq_div]
  field_simp
  linarith [hx]

/-! ### Calendar dates

Models the JS round trip
`new Date(dateStr + "T12:00:00Z")` / `setUTCDate` / `toISOString().slice(0, 10)`
used by `spreadSupplementaryDates`.  The strict ISO `YYYY-MM-DD` format is the
one the data files use; non-ISO strings (whose JS parse is implementation
defined) are modelled as invalid. -/

/-- A civil calendar date (proleptic Gregorian, as used by JS UTC dates). -/
structure Ymd where
  year : Nat
  month : Nat
  day : Nat
deriving DecidableEq, Repr

/-- Gregorian leap-year rule (the rule JS UTC date arithmetic follows). -/
def isLeap (y : Nat) : Bool := y % 4 = 0 && (y % 100 ≠ 0 || y % 400 = 0)

/-- Days in a month of the proleptic Gregorian calendar. -/
def daysInMonth (y m : Nat) : Nat :=
  if m = 2 then (if isLeap y then 29 else 28)
  else if m = 4 ∨ m = 6 ∨ m = 9 ∨ m = 11 then 30
  else 31

/-- Valid calendar dates (month and day in range). -/
def ValidYmd (d : Ymd) : Prop :=
  1 ≤ d.month ∧ d.month ≤ 12 ∧ 1 ≤ d.day ∧ d.day ≤ daysInMonth d.year d.month

instance (d : Ymd) : Decidable (ValidYmd d) := by
  unfold ValidYmd; infer_instance

/-- The previous calendar day (model of subtracting one day via `setUTCDate`;
the year is a `Nat`, so stepping back from year 0 is outside the modelled
domain and clamps). -/
def prevDay (d : Ymd) : Ymd :=
  if 2 ≤ d.day then ⟨d.year, d.month, d.day - 1⟩
  else if 2 ≤ d.month then ⟨d.year, d.month - 1, daysInMonth d.year (d.month - 1)⟩
  else ⟨d.year - 1, 12, 31⟩

/-- Stepping back `k` calendar days (model of `setUTCDate(getUTCDate() - k)`,
which subtracts whole days in the ms timeline). -/
def prevDayIter : Nat → Ymd → Ymd
  | 0, d => d
  | k + 1, d => prevDay (prevDayIter k d)

theorem daysInMonth_pos (y m : Nat) : 1 ≤ daysInMonth y m := by
  unfold daysInMonth
  split <;> [split <;> omega; skip]
  split <;> omega

theorem daysInMonth_le (y m : Nat) : daysInMonth y m ≤ 31 := by
  unfold daysInMonth
  split <;> [split <;> omega; skip]
  split <;> omega

theorem prevDay_valid {d : Ymd} (h : ValidYmd d) : ValidYmd (prevDay d) := by
  obtain ⟨h1, h2, h3, h4⟩ := h
  unfold ValidYmd prevDay
  split
  · dsimp only
    exact ⟨h1, h2, by omega, by omega⟩
  · split
    · dsimp only
      exact ⟨by omega, by omega, daysInMonth_pos _ _, le_rfl⟩
    · dsimp only
      refine ⟨by omega, by omega, by omega, ?_⟩
      simp [daysInMonth]

theorem prevDay_year_le (d : Ymd) : d.year - 1 ≤ (prevDay d).year ∧ (prevDay d).year ≤ d.year := by
  unfold prevDay
  split
  · simp
  · split <;> simp

theorem prevDayIter_valid {d : Ymd} (h : ValidYmd d) (k : Nat) :
    ValidYmd (prevDayIter k d) := by
  induction k with
  | zero => exact h
  | succ k ih => exact prevDay_valid ih

theorem prevDayIter_year_le (d : Ymd) (k : Nat) : (prevDayIter k d).year ≤ d.year := by
  induction k with
  | zero => simp [prevDayIter]
  | succ k ih => exact le_trans (prevDay_year_le _).2 ih

/-- Lexicographic strict order on dates, used to show the spread dates are
pairwise distinct. -/
def ymdLt (a b : Ymd) : Prop :=
  a.year < b.year ∨ (a.year = b.year ∧ (a.month < b.month ∨ (a.month = b.month ∧ a.day < b.day)))

theorem ymdLt_trans {a b c : Ymd} (h1 : ymdLt a b) (h2 : ymdLt b c) : ymdLt a c := by
  unfold ymdLt at *
  omega

theorem ymdLt_irrefl (a : Ymd) : ¬ ymdLt a a := by
  unfold ymdLt; omega

/-- Stepping back a day strictly decreases the date as long as no year-0
clamp occurs (`1 ≤ d.year` or the step stays inside the year). -/
theorem prevDay_lt {d : Ymd} (h : ValidYmd d) (hy : 1 ≤ d.year ∨ 2 ≤ d.month ∨ 2 ≤ d.day) :
    ymdLt (prevDay d) d := by
  obtain ⟨h1, h2, h3, h4⟩ := h
  unfold prevDay ymdLt
  split
  · dsimp only
    right; exact ⟨rfl, Or.inr ⟨rfl, by omega⟩⟩
  · split
    · dsimp only
      right; exact ⟨rfl, Or.inl (by omega)⟩
    · dsimp only
      left; omega

/-! ### ISO date strings: strict `YYYY-MM-DD` parse and fixed-width render -/

/-- Fixed-width decimal rendering (most significant digit first). -/
def pad4 (n : Nat) : List Char :=
  [digitChar (n / 1000 % 10), digitChar (n / 100 % 10), digitChar (n / 10 % 10), digitChar (n % 10)]

/-- Two-digit zero-padded rendering. -/
def pad2 (n : Nat) : List Char := [digitChar (n / 10 % 10), digitChar (n % 10)]

/-- Model of `toISOString().slice(0, 10)` for dates with year 0–9999. -/
def renderISODate (d : Ymd) : String :=
  String.mk (pad4 d.year ++ '-' :: (pad2 d.month ++ '-' :: pad2 d.day))

/-- Strict parser for `YYYY-MM-DD` with an in-range calendar check; model of
`new Date(s + "T12:00:00Z")` succeeding (non-ISO strings are out of the
modelled domain, and out-of-range ISO dates yield an invalid JS date). -/
def parseISODate (s : String) : Option Ymd :=
  match s.data with
  | [y1, y2, y3, y4, h1, m1, m2, h2, d1, d2] =>
    if h1 = '-' ∧ h2 = '-' then
      match digitVal? y1, digitVal? y2, digitVal? y3, digitVal? y4,
            digitVal? m1, digitVal? m2, digitVal? d1, digitVal? d2 with
      | some a, some b, some c, some d, some e, some f, some g, some h =>
        let yr := 1000 * a + 100 * b + 10 * c + d
        let mo := 10 * e + f
        let dy := 10 * g + h
        if 1 ≤ mo ∧ mo ≤ 12 ∧ 1 ≤ dy ∧ dy ≤ daysInMonth yr mo then
          some ⟨yr, mo, dy⟩
        else none
      | _, _, _, _, _, _, _, _ => none
    else none
  | _ => none

theorem digitVal?_digitChar : ∀ k, k < 10 → digitVal? (digitChar k) = some k := by decide

theorem digitVal?_lt {c : Char} {k : Nat} (h : digitVal? c = some k) : k < 10 := by
  unfold digitVal? at h
  split_ifs at h <;> (injection h with hk; omega)

theorem digitChar_digitVal? {c : Char} {k : Nat} (h : digitVal? c = some k) :
    digitChar k = c := by
  unfold digitVal? at h
  split_ifs at h <;> (injection h with hk; subst hk; subst_vars; rfl)

theorem parseISODate_renderISODate {d : Ymd} (hv : ValidYmd d) (hy : d.year ≤ 9999) :
    parseISODate (renderISODate d) = some d := by
  obtain ⟨h1, h2, h3, h4⟩ := hv
  have hm31 : d.day ≤ 31 := le_trans h4 (daysInMonth_le _ _)
  have e1 := digitVal?_digitChar (d.year / 1000 % 10) (by omega)
  have e2 := digitVal?_digitChar (d.year / 100 % 10) (by omega)
  have e3 := digitVal?_digitChar (d.year / 10 % 10) (by omega)
  have e4 := digitVal?_digitChar (d.year % 10) (by omega)
  have e5 := digitVal?_digitChar (d.month / 10 % 10) (by omega)
  have e6 := digitVal?_digitChar (d.month % 10) (by omega)
  have e7 := digitVal?_digitChar (d.day / 10 % 10) (by omega)
  have e8 := digitVal?_digitChar (d.day % 10) (by omega)
  have hyr : 1000 * (d.year / 1000 % 10) + 100 * (d.year / 100 % 10)
      + 10 * (d.year / 10 % 10) + d.year % 10 = d.year := by omega
  have hmo : 10 * (d.month / 10 % 10) + d.month % 10 = d.month := by omega
  have hdy : 10 * (d.day / 10 % 10) + d.day % 10 = d.day := by omega
  unfold renderISODate parseISODate pad4 pad2
  simp only [List.cons_append, List.nil_append]
  simp [e1, e2, e3, e4, e5, e6, e7, e8, hyr, hmo, hdy, h1, h2, h3, h4]

theorem renderISODate_parseISODate {s : String} {d : Ymd}
    (h : parseISODate s = some d) : renderISODate d = s := by
  unfold parseISODate at h
  split at h
  case h_2 => exact absurd h (by simp)
  case h_1 y1 y2 y3 y4 h1c m1 m2 h2c d1 d2 heq =>
    split at h
    case isFalse => exact absurd h (by simp)
    case isTrue hdash =>
      obtain ⟨hd1, hd2⟩ := hdash
      subst hd1; subst hd2
      split at h
      case h_2 => exact absurd h (by simp)
      case h_1 a b c dd e f g hh ha hb hc hd he hf hg hhh =>
        dsimp only at h
        split at h
        case isFalse => exact absurd h (by simp)
        case isTrue hrange =>
          have hd := Option.some.inj h
          subst hd
          apply String.ext
          rw [heq]
          unfold renderISODate pad4 pad2
          have hlt := fun {c k} (hx : digitVal? c = some k) => digitVal?_lt hx
          simp only [List.cons_append, List.nil_append]
          have e1 : digitChar ((1000 * a + 100 * b + 10 * c + dd) / 1000 % 10) = y1 := by
            rw [show (1000 * a + 100 * b + 10 * c + dd) / 1000 % 10 = a by
              have := hlt ha; have := hlt hb; have := hlt hc; have := hlt hd; omega]
            exact digitChar_digitVal? ha
          have e2 : digitChar ((1000 * a + 100 * b + 10 * c + dd) / 100 % 10) = y2 := by
            rw [show (1000 * a + 100 * b + 10 * c + dd) / 100 % 10 = b by
              have := hlt hb; have := hlt hc; have := hlt hd; omega]
            exact digitChar_digitVal? hb
          have e3 : digitChar ((1000 * a + 100 * b + 10 * c + dd) / 10 % 10) = y3 := by
            rw [show (1000 * a + 100 * b + 10 * c + dd) / 10 % 10 = c by
              have := hlt hc; have := hlt hd; omega]
            exact digitChar_digitVal? hc
          have e4 : digitChar ((1000 * a + 100 * b + 10 * c + dd) % 10) = y4 := by
            rw [show (1000 * a + 100 * b + 10 * c + dd) % 10 = dd by
              have := hlt hd; omega]
            exact digitChar_digitVal? hd
          have e5 : digitChar ((10 * e + f) / 10 % 10) = m1 := by
            rw [show (10 * e + f) / 10 % 10 = e by
              have := hlt he; have := hlt hf; omega]
            exact digitChar_digitVal? he
          have e6 : digitChar ((10 * e + f) % 10) = m2 := by
            rw [show (10 * e + f) % 10 = f by have := hlt hf; omega]
            exact digitChar_digitVal? hf
          have e7 : digitChar ((10 * g + hh) / 10 % 10) = d1 := by
            rw [show (10 * g + hh) / 10 % 10 = g by
              have := hlt hg; have := hlt hhh; omega]
            exact digitChar_digitVal? hg
          have e8 : digitChar ((10 * g + hh) % 10) = d2 := by
            rw [show (10 * g + hh) % 10 = hh by have := hlt hhh; omega]
            exact digitChar_digitVal? hhh
          rw [e1, e2, e3, e4, e5, e6, e7, e8]

theorem parseISODate_valid {s : String} {d : Ymd} (h : parseISODate s = some d) :
    ValidYmd d ∧ d.year ≤ 9999 := by
  unfold parseISODate at h
  split at h
  case h_2 => exact absurd h (by simp)
  case h_1 =>
    split at h
    case isFalse => exact absurd h (by simp)
    case isTrue =>
      split at h
      case h_2 => exact absurd h (by simp)
      case h_1 a b c dd e f g hh ha hb hc hd he hf hg hhh =>
        dsimp only at h
        split at h
        case isFalse => exact absurd h (by simp)
        case isTrue hrange =>
          have hd := Option.some.inj h
          subst hd
          have l1 := digitVal?_lt ha
          have l2 := digitVal?_lt hb
          have l3 := digitVal?_lt hc
          have l4 := digitVal?_lt hd
          exact ⟨hrange, by simp; omega⟩

/-! ### Data model -/

/-- Conversion metadata attached to a converted price (`fx` field). -/
structure FxMeta where
  pair : String
  rate : Rat
  source : String
  date : String
deriving DecidableEq, Repr

/-- An emitted price point, one element of the canonical `series`. -/
structure Point where
  date : String
  kind : String
  priceAmount : Rat
  priceCurrency : String
  priceCadAmount : Rat
  fx : Option FxMeta
  sourceId : String
  url : String
  wayback : Option String
deriving DecidableEq, Repr

/-- A supplementary point as stored in `supplementary-points.json`.  Fields
missing in the JSON are modelled as `""` / `0`, which is exactly what the JS
falsiness checks (`!pt?.date`, `!pt?.price?.amount`, ...) treat them as. -/
structure SPoint where
  date : String
  kind : String
  amount : Rat
  currency : String
  sourceId : String
  url : String
  wayback : Option String
deriving DecidableEq, Repr

/-- Model of `String.prototype.toUpperCase` (ASCII range; the currency codes
and ids in the data are ASCII). -/
def upperStr (s : String) : String := String.mk (s.data.map Char.toUpper)

/-- Rendering of a rational amount used inside template-literal keys.  Stands
in for `Number.prototype.toString`: like it, the rendering is injective and
contains neither the aggregate separator character nor a digit-breaking
surprise; only those two properties are used. -/
def ratKey (q : Rat) : String := intStr q.num ++ "/" ++ natStr q.den

theorem ratKey_chars {q : Rat} {c : Char} (hc : c ∈ (ratKey q).data) : c ≠ '|' := by
  simp only [ratKey, String.data_append] at hc
  rcases List.mem_append.mp hc with hc | hc
  · rcases List.mem_append.mp hc with hc | hc
    · exact (intStr_chars hc).1
    · have : c = '/' := by simpa using hc
      subst this; decide
  · exact (natStr_chars hc).1

theorem ratKey_inj {p q : Rat} (h : ratKey p = ratKey q) : p = q := by
  have hdata : (intStr p.num).data ++ '/' :: (natStr p.den).data
      = (intStr q.num).data ++ '/' :: (natStr q.den).data := by
    have := congrArg String.data h
    simpa [ratKey, String.data_append] using this
  have hsep := append_sep_inj '/' _ _ _ _
    (fun hm => (intStr_chars hm).2 rfl) (fun hm => (intStr_chars hm).2 rfl) hdata
  have hnum : p.num = q.num := intStr_inj (String.ext hsep.1)
  have hden : p.den = q.den := natStr_inj (String.ext hsep.2)
  exact Rat.ext hnum hden

/-! ### Dedup key and deduplication (`buildSeries`, update-data.mjs:288–296) -/

/-- The template-literal dedup key
`date + "|" + kind + "|" + price.amount + "|" + price.currency + "|" + sourceId`. -/
def dedupKey (p : Point) : String :=
  p.date ++ "|" ++ p.kind ++ "|" ++ ratKey p.priceAmount ++ "|" ++ p.priceCurrency
    ++ "|" ++ p.sourceId

/-- The tuple the spec names as the deduplication key. -/
def dedupTuple (p : Point) : String × String × Rat × String × String :=
  (p.date, p.kind, p.priceAmount, p.priceCurrency, p.sourceId)

/-- Points whose key-joined textual fields avoid the separator character. -/
def BarFree (p : Point) : Prop :=
  '|' ∉ p.date.data ∧ '|' ∉ p.kind.data ∧ '|' ∉ p.priceCurrency.data

instance (p : Point) : Decidable (BarFree p) := by unfold BarFree; infer_instance

theorem dedupKey_data (p : Point) :
    (dedupKey p).data = p.date.data ++ '|' :: (p.kind.data ++ '|' ::
      ((ratKey p.priceAmount).data ++ '|' :: (p.priceCurrency.data ++ '|' ::
        p.sourceId.data))) := by
  simp [dedupKey, String.data_append]

theorem dedupTuple_eq_of_dedupKey_eq {p q : Point} (hp : BarFree p) (hq : BarFree q)
    (h : dedupKey p = dedupKey q) : dedupTuple p = dedupTuple q := by
  obtain ⟨hp1, hp2, hp3⟩ := hp
  obtain ⟨hq1, hq2, hq3⟩ := hq
  have hdata := congrArg String.data h
  rw [dedupKey_data, dedupKey_data] at hdata
  obtain ⟨hdate, hrest⟩ := append_sep_inj '|' _ _ _ _ hp1 hq1 hdata
  obtain ⟨hkind, hrest2⟩ := append_sep_inj '|' _ _ _ _ hp2 hq2 hrest
  obtain ⟨hamt, hrest3⟩ := append_sep_inj '|' _ _ _ _
    (fun hm => ratKey_chars hm rfl) (fun hm => ratKey_chars hm rfl) hrest2
  obtain ⟨hcur, hsid⟩ := append_sep_inj '|' _ _ _ _ hp3 hq3 hrest3
  have h1 : p.date = q.date := String.ext hdate
  have h2 : p.kind = q.kind := String.ext hkind
  have h3 : p.priceAmount = q.priceAmount := ratKey_inj (String.ext hamt)
  have h4 : p.priceCurrency = q.priceCurrency := String.ext hcur
  have h5 : p.sourceId = q.sourceId := String.ext hsid
  simp [dedupTuple, h1, h2, h3, h4, h5]

theorem dedupKey_eq_of_dedupTuple_eq {p q : Point} (h : dedupTuple p = dedupTuple q) :
    dedupKey p = dedupKey q := by
  simp only [dedupTuple, Prod.mk.injEq] at h
  obtain ⟨h1, h2, h3, h4, h5⟩ := h
  simp [dedupKey, h1, h2, h3, h4, h5]

/-- The seen-set loop of `buildSeries` (`seen` is the JS `Set` of keys). -/
def dedupeAux (seen : List String) : List Point → List Point
  | [] => []
  | p :: rest =>
    if dedupKey p ∈ seen then dedupeAux seen rest
    else p :: dedupeAux (dedupKey p :: seen) rest

/-- De-dupe exact `(date, kind, amount, currency, sourceId)` keys, first
occurrence wins. -/
def dedupe (l : List Point) : List Point := dedupeAux [] l

theorem dedupeAux_filter (k : String) :
    ∀ (seen : List String) (l : List Point),
      (dedupeAux seen l).filter (fun p => dedupKey p == k)
        = if k ∈ seen then [] else (l.filter (fun p => dedupKey p == k)).take 1 := by
  intro seen l
  induction l generalizing seen with
  | nil => simp [dedupeAux]
  | cons p rest ih =>
    by_cases hmem : dedupKey p ∈ seen
    · rw [show dedupeAux seen (p :: rest) = dedupeAux seen rest by
        simp [dedupeAux, hmem]]
      rw [ih seen]
      by_cases hk : k ∈ seen
      · simp [hk]
      · have hne : ¬ (dedupKey p == k) = true := by
          simp only [beq_iff_eq]
          intro hcontr; exact hk (hcontr ▸ hmem)
        simp [hk, List.filter_cons, hne]
    · rw [show dedupeAux seen (p :: rest)
          = p :: dedupeAux (dedupKey p :: seen) rest by simp [dedupeAux, hmem]]
      by_cases hk : k = dedupKey p
      · subst hk
        rw [if_neg hmem]
        rw [List.filter_cons, if_pos (by simp)]
        rw [ih (dedupKey p :: seen), if_pos (List.mem_cons_self _ _)]
        rw [List.filter_cons, if_pos (by simp)]
        simp
      · rw [List.filter_cons, if_neg (by simp [Ne.symm hk])]
        rw [ih (dedupKey p :: seen)]
        by_cases hks : k ∈ seen
        · simp [hks]
        · have : ¬ k ∈ dedupKey p :: seen := by simp [hk, hks]
          simp only [if_neg this, if_neg hks]
          rw [List.filter_cons, if_neg (by simp [Ne.symm hk])]

theorem dedupe_filter (k : String) (l : List Point) :
    (dedupe l).filter (fun p => dedupKey p == k)
      = (l.filter (fun p => dedupKey p == k)).take 1 := by
  rw [dedupe, dedupeAux_filter k [] l, if_neg (List.not_mem_nil k)]

theorem dedupeAux_nodup :
    ∀ (seen : List String) (l : List Point),
      ((dedupeAux seen l).map dedupKey).Nodup
        ∧ ∀ x ∈ (dedupeAux seen l).map dedupKey, x ∉ seen := by
  intro seen l
  induction l generalizing seen with
  | nil => simp [dedupeAux]
  | cons p rest ih =>
    by_cases hmem : dedupKey p ∈ seen
    · rw [show dedupeAux seen (p :: rest) = dedupeAux seen rest by
        simp [dedupeAux, hmem]]
      exact ih seen
    · rw [show dedupeAux seen (p :: rest)
          = p :: dedupeAux (dedupKey p :: seen) rest by simp [dedupeAux, hmem]]
      obtain ⟨ihn, ihs⟩ := ih (dedupKey p :: seen)
      constructor
      · rw [List.map_cons, List.nodup_cons]
        refine ⟨fun hx => ?_, ihn⟩
        have := ihs _ hx
        simp at this
      · intro x hx
        rw [List.map_cons, List.mem_cons] at hx
        rcases hx with rfl | hx
        · exact hmem
        · have := ihs _ hx
          intro hcontr
          exact this (List.mem_cons_of_mem _ hcontr)

theorem dedupe_keys_nodup (l : List Point) : ((dedupe l).map dedupKey).Nodup :=
  (dedupeAux_nodup [] l).1

theorem mem_of_mem_dedupeAux {p : Point} :
    ∀ (seen : List String) (l : List Point), p ∈ dedupeAux seen l → p ∈ l := by
  intro seen l
  induction l generalizing seen with
  | nil => simp [dedupeAux]
  | cons q rest ih =>
    intro hp
    by_cases hmem : dedupKey q ∈ seen
    · rw [show dedupeAux seen (q :: rest) = dedupeAux seen rest by
        simp [dedupeAux, hmem]] at hp
      exact List.mem_cons_of_mem _ (ih seen hp)
    · rw [show dedupeAux seen (q :: rest)
          = q :: dedupeAux (dedupKey q :: seen) rest by simp [dedupeAux, hmem]] at hp
      rcases List.mem_cons.mp hp with rfl | hp
      · exact List.mem_cons_self _ _
      · exact List.mem_cons_of_mem _ (ih _ hp)

theorem mem_of_mem_dedupe {p : Point} {l : List Point} (h : p ∈ dedupe l) : p ∈ l :=
  mem_of_mem_dedupeAux [] l h

/-! ### Sorting (models of stable `Array.prototype.sort` with the
comparators used in the scripts) -/

/-- Comparator `(a, b) => a.date.localeCompare(b.date)` as a total preorder. -/
def ptDateLe (a b : Point) : Prop := a.date.data ≤ b.date.data

instance : DecidableRel ptDateLe := fun a b => by unfold ptDateLe; infer_instance

instance : IsTotal Point ptDateLe := ⟨fun a b => le_total a.date.data b.date.data⟩

instance : IsTrans Point ptDateLe := ⟨fun _ _ _ h1 h2 => le_trans h1 h2⟩

/-- The final sort of `buildSeries`. -/
def sortByDate (l : List Point) : List Point := l.insertionSort ptDateLe

/-- Comparator `(a, b) => (a.price?.amount ?? 0) - (b.price?.amount ?? 0)`. -/
def spAmountLe (a b : SPoint) : Prop := a.amount ≤ b.amount

instance : DecidableRel spAmountLe := fun a b => by unfold spAmountLe; infer_instance

instance : IsTotal SPoint spAmountLe := ⟨fun a b => le_total a.amount b.amount⟩

instance : IsTrans SPoint spAmountLe := ⟨fun _ _ _ h1 h2 => le_trans h1 h2⟩

/-- Comparator `(a, b) => a.date.localeCompare(b.date) || amount diff`. -/
def spDateAmountLe (a b : SPoint) : Prop :=
  a.date.data < b.date.data ∨ (a.date.data = b.date.data ∧ a.amount ≤ b.amount)

instance : DecidableRel spDateAmountLe := fun a b => by
  unfold spDateAmountLe; infer_instance

/-- Stable sort by ascending amount (the in-group sort of
`spreadSupplementaryDates`). -/
def sortByAmount (g : List SPoint) : List SPoint := g.insertionSort spAmountLe

/-- Stable sort by date then amount (final sorts of
`spreadSupplementaryDates` and of the supplementary store). -/
def sortByDateAmount (l : List SPoint) : List SPoint := l.insertionSort spDateAmountLe

/-! ### Date spreading (`spreadSupplementaryDates`, update-data.mjs:126–150) -/

/-- Group key `pt.sourceId + "|" + pt.date`. -/
def skey (p : SPoint) : String := p.sourceId ++ "|" ++ p.date

theorem skey_data (p : SPoint) : (skey p).data = p.sourceId.data ++ '|' :: p.date.data := by
  simp [skey, String.data_append]

/-- First-occurrence group keys, in encounter order (a JS `Map` iterates its
keys in insertion order). -/
def keysInOrderAux (seen : List String) : List SPoint → List String
  | [] => []
  | p :: rest =>
    if skey p ∈ seen then keysInOrderAux seen rest
    else skey p :: keysInOrderAux (skey p :: seen) rest

/-- Keys of the grouping `Map`, in insertion order. -/
def keysInOrder (pts : List SPoint) : List String := keysInOrderAux [] pts

/-- The grouping `Map` of `spreadSupplementaryDates`: insertion-ordered keys,
each mapped to its members in encounter order (the filter). -/
def groupByKey (pts : List SPoint) : List (String × List SPoint) :=
  (keysInOrder pts).map (fun k => (k, pts.filter (fun p => skey p == k)))

theorem mem_keysInOrderAux {k : String} :
    ∀ (seen : List String) (pts : List SPoint),
      k ∈ keysInOrderAux seen pts ↔ (k ∉ seen ∧ ∃ p ∈ pts, skey p = k) := by
  intro seen pts
  induction pts generalizing seen with
  | nil => simp [keysInOrderAux]
  | cons p rest ih =>
    by_cases hmem : skey p ∈ seen
    · rw [show keysInOrderAux seen (p :: rest) = keysInOrderAux seen rest by
        simp [keysInOrderAux, hmem]]
      rw [ih seen]
      constructor
      · rintro ⟨h1, q, hq, rfl⟩
        exact ⟨h1, q, List.mem_cons_of_mem _ hq, rfl⟩
      · rintro ⟨h1, q, hq, rfl⟩
        rcases List.mem_cons.mp hq with rfl | hq
        · exact absurd hmem h1
        · exact ⟨h1, q, hq, rfl⟩
    · rw [show keysInOrderAux seen (p :: rest)
          = skey p :: keysInOrderAux (skey p :: seen) rest by
        simp [keysInOrderAux, hmem]]
      rw [List.mem_cons, ih (skey p :: seen)]
      constructor
      · rintro (rfl | ⟨h1, q, hq, rfl⟩)
        · exact ⟨hmem, p, List.mem_cons_self _ _, rfl⟩
        · exact ⟨fun hc => h1 (List.mem_cons_of_mem _ hc), q, List.mem_cons_of_mem _ hq, rfl⟩
      · rintro ⟨h1, q, hq, rfl⟩
        rcases List.mem_cons.mp hq with rfl | hq
        · exact Or.inl rfl
        · by_cases he : skey q = skey p
          · exact Or.inl he
          · exact Or.inr ⟨by simp [he, h1], q, hq, rfl⟩

theorem mem_keysInOrder {k : String} {pts : List SPoint} :
    k ∈ keysInOrder pts ↔ ∃ p ∈ pts, skey p = k := by
  rw [keysInOrder, mem_keysInOrderAux]
  simp

/-- Re-dating loop of a multi-member group: the `i`-th member (ascending by
amount) is assigned the day `length - 1 - i` days before the shared date. -/
def redateGroup (base : Ymd) (n : Nat) : Nat → List SPoint → List SPoint
  | _, [] => []
  | i, p :: ps =>
    { p with date := renderISODate (prevDayIter (n - 1 - i) base) }
      :: redateGroup base n (i + 1) ps

/-- Spread one group: groups of size ≤ 1 are passed through; larger groups
are re-dated from the first member's (= the shared) date.  `none` models the
`RangeError` JS throws when the shared date does not parse. -/
def spreadGroup (g : List SPoint) : Option (List SPoint) :=
  if g.length ≤ 1 then some g
  else
    match g with
    | [] => some []
    | h :: _ =>
      match parseISODate h.date with
      | none => none
      | some base => some (redateGroup base g.length 0 (sortByAmount g))

/-- Sequence an option-producing function over a list (the grouped loop
body; the first failure aborts, as a JS throw would). -/
def optionMapM {α β : Type} (f : α → Option β) : List α → Option (List β)
  | [] => some []
  | a :: as =>
    match f a with
    | none => none
    | some b =>
      match optionMapM f as with
      | none => none
      | some bs => some (b :: bs)

theorem optionMapM_mem {α β : Type} (f : α → Option β) :
    ∀ (l : List α) (ys : List β), optionMapM f l = some ys →
      ∀ x ∈ l, ∃ y ∈ ys, f x = some y := by
  intro l
  induction l with
  | nil => intro ys _ x hx; simp at hx
  | cons a as ih =>
    intro ys hys x hx
    unfold optionMapM at hys
    cases hfa : f a with
    | none => rw [hfa] at hys; exact absurd hys (by simp)
    | some b =>
      rw [hfa] at hys
      cases hrest : optionMapM f as with
      | none => rw [hrest] at hys; exact absurd hys (by simp)
      | some bs =>
        rw [hrest] at hys
        have hys2 := Option.some.inj hys
        subst hys2
        rcases List.mem_cons.mp hx with rfl | hx
        · exact ⟨b, by simp, hfa⟩
        · obtain ⟨y, hy1, hy2⟩ := ih bs hrest x hx
          exact ⟨y, by simp [hy1], hy2⟩

/-- Model of `spreadSupplementaryDates`: group on `(sourceId, date)` via the
joined key, spread each group, concatenate in key order, sort by date then
amount. -/
def spreadSupplementaryDates (pts : List SPoint) : Option (List SPoint) :=
  (optionMapM (fun g => spreadGroup g.2) (groupByKey pts)).map
    (fun parts => sortByDateAmount parts.flatten)

/-! ### HTML price extraction

Faithful models of the regex scans in `parsePriceFromHtml`,
`parseGrailedPrices` and `parseEbayPrices`.  JS `matchAll` semantics: try a
match at each position left to right; on success continue after the matched
text, otherwise advance one character.  The specific patterns only ever need
the limited backtracking implemented below (a trailing run of optional
elements never forces backtracking; `\d{2,3}` followed by a mandatory tail
retries with two digits after three). -/

/-- Match a literal character list (case sensitive), returning the rest. -/
def matchLit : List Char → List Char → Option (List Char)
  | [], cs => some cs
  | _ :: _, [] => none
  | l :: ls, c :: cs => if c = l then matchLit ls cs else none

/-- Match a literal case-insensitively (model of the `/i` flag, ASCII). -/
def matchLitCI : List Char → List Char → Option (List Char)
  | [], cs => some cs
  | _ :: _, [] => none
  | l :: ls, c :: cs => if c.toLower = l.toLower then matchLitCI ls cs else none

/-- Greedy run of decimal digits, value list plus remainder. -/
def takeDigits : List Char → List Nat × List Char
  | [] => ([], [])
  | c :: cs =>
    match digitVal? c with
    | some d =>
      let r := takeDigits cs
      (d :: r.1, r.2)
    | none => ([], c :: cs)

/-- Greedy run of at most `k` decimal digits (model of `\d{2,3}`-style
bounded quantifiers). -/
def takeDigitsUpTo : Nat → List Char → List Nat × List Char
  | 0, cs => ([], cs)
  | _ + 1, [] => ([], [])
  | k + 1, c :: cs =>
    match digitVal? c with
    | some d =>
      let r := takeDigitsUpTo k cs
      (d :: r.1, r.2)
    | none => ([], c :: cs)

/-- Optional fraction `(?:\.\d+)?` (greedy); empty digit list means the
fraction was not matched and nothing was consumed. -/
def takeFrac : List Char → List Nat × List Char
  | '.' :: cs =>
    match takeDigits cs with
    | ([], _) => ([], '.' :: cs)
    | (ds, rest) => (ds, rest)
  | cs => ([], cs)

/-- Exact rational value of `intDigits.fracDigits` (model of JS `Number` on
the captured decimal text). -/
def decimalVal (ds fds : List Nat) : Rat :=
  ratAdd (mkRat (digitsVal ds) 1) (mkRat (digitsVal fds) (10 ^ fds.length))

/-- Model of `matchAll`: scan positions left to right, collecting payloads;
fuel is the input length (every match consumes at least one character). -/
def scanAux (f : List Char → Option (Rat × List Char)) : Nat → List Char → List Rat
  | _, [] => []
  | 0, _ :: _ => []
  | fuel + 1, c :: cs =>
    match f (c :: cs) with
    | some (a, rest) => a :: scanAux f fuel rest
    | none => scanAux f fuel cs

/-- All matches of `f` over a character list. -/
def scanMatches (f : List Char → Option (Rat × List Char)) (cs : List Char) : List Rat :=
  scanAux f cs.length cs

/-- Model of `.match` (first match only). -/
def firstMatchAux {α : Type} (f : List Char → Option α) : Nat → List Char → Option α
  | 0, _ => none
  | fuel + 1, cs =>
    match f cs with
    | some a => some a
    | none =>
      match cs with
      | [] => none
      | _ :: rest => firstMatchAux f fuel rest

/-- First match of `f` in a character list. -/
def firstMatch {α : Type} (f : List Char → Option α) (cs : List Char) : Option α :=
  firstMatchAux f (cs.length + 1) cs

/-! #### The Grailed extractor (`parseGrailedPrices`, fetch-marketplace.mjs:32–62) -/

/-- One attempt of `/"price"\s*:\s*"?(\d{2,3}(?:\.\d+)?)"?/g` at a position. -/
def tryPriceAt (cs : List Char) : Option (Rat × List Char) := do
  let r ← matchLit "\"price\"".data cs
  let r := r.dropWhile Char.isWhitespace
  let r ← match r with
    | ':' :: t => some t
    | _ => none
  let r := r.dropWhile Char.isWhitespace
  let r := match r with
    | '"' :: t => t
    | t => t
  let dr := takeDigitsUpTo 3 r
  if dr.1.length < 2 then none
  else
    let fr := takeFrac dr.2
    let r2 := match fr.2 with
      | '"' :: t => t
      | t => t
    some (decimalVal dr.1 fr.1, r2)

/-- Mandatory `\s*(?:USD|usd)` tail (with `/i`) after a captured number. -/
def tryUsdTail (a : Rat) (rest : List Char) : Option (Rat × List Char) :=
  match matchLitCI "usd".data (rest.dropWhile Char.isWhitespace) with
  | some r2 => some (a, r2)
  | none => none

/-- One digit-count alternative (`k` digits) of the `$…USD` pattern. -/
def tryUsdDigits (k : Nat) (r1 : List Char) : Option (Rat × List Char) :=
  let dr := takeDigitsUpTo k r1
  if dr.1.length = k then
    match
      (match takeFrac dr.2 with
       | ([], _) => none
       | (fds, rest2) => tryUsdTail (decimalVal dr.1 fds) rest2) with
    | some res => some res
    | none => tryUsdTail (decimalVal dr.1 []) dr.2
  else none

/-- One attempt of `/\$\s*(\d{2,3}(?:\.\d+)?)\s*(?:USD|usd)/gi`: greedy three
digits first, then the two-digit backtrack. -/
def tryUsdAt : List Char → Option (Rat × List Char)
  | '$' :: r =>
    let r1 := r.dropWhile Char.isWhitespace
    match tryUsdDigits 3 r1 with
    | some res => some res
    | none => tryUsdDigits 2 r1
  | _ => none

/-- Terminator alternation `(?:\s|"|,|<\/|\.)` (first alternative wins, the
matched terminator is consumed). -/
def plainTerm : List Char → Option (List Char)
  | c :: r2 =>
    if c.isWhitespace ∨ c = '"' ∨ c = ',' then some r2
    else if c = '<' then
      match r2 with
      | '/' :: r3 => some r3
      | _ => none
    else if c = '.' then some r2
    else none
  | [] => none

/-- One digit-count alternative of the plain-dollar pattern. -/
def tryPlainDigits (k : Nat) (r : List Char) : Option (Rat × List Char) :=
  let dr := takeDigitsUpTo k r
  if dr.1.length = k then
    match plainTerm dr.2 with
    | some r2 => some (decimalVal dr.1 [], r2)
    | none => none
  else none

/-- One attempt of `/\$(\d{2,3})(?:\s|"|,|<\/|\.)/g`. -/
def tryPlainAt : List Char → Option (Rat × List Char)
  | '$' :: r =>
    (match tryPlainDigits 3 r with
     | some res => some res
     | none => tryPlainDigits 2 r)
  | _ => none

/-- Search page URLs (fetch-marketplace.mjs:16–18). -/
def GRAILED_SEARCH : String := "https://www.grailed.com/search?q=veilance+bucket+hat"

/-- The eBay sold-listings search URL. -/
def EBAY_SOLD : String :=
  "https://www.ebay.com/sch/i.html?_nkw=veilance+bucket+hat+carmine&_sacat=0&LH_Sold=1&LH_Complete=1"

/-- The eBay live-listings search URL. -/
def EBAY_LISTINGS : String :=
  "https://www.ebay.com/sch/i.html?_nkw=veilance+bucket+hat+carmine&_sacat=0"

/-- The shared per-parse loop body of `parseGrailedPrices`: keep an amount
only if it is in the sane range [80, 350] and not seen before on this page. -/
def grailedCollect (today : String) (seen : List Rat) : List Rat → List SPoint
  | [] => []
  | a :: as =>
    if 80 ≤ a ∧ a ≤ 350 ∧ a ∉ seen then
      ⟨today, "sale", a, "USD", "grailed", GRAILED_SEARCH, none⟩
        :: grailedCollect today (a :: seen) as
    else grailedCollect today seen as

/-- Model of `parseGrailedPrices` (`today` stands for
`new Date().toISOString().slice(0, 10)`). -/
def parseGrailedPrices (today : String) (html : String) : List SPoint :=
  let cs := html.data
  grailedCollect today []
    (scanMatches tryPriceAt cs ++ scanMatches tryUsdAt cs ++ scanMatches tryPlainAt cs)

/-! #### The eBay extractor (`parseEbayPrices`, fetch-marketplace.mjs:64–86) -/

/-- One attempt of `/\$\s*(\d+(?:\.\d+)?)\s*(?:CAD|USD|CAD\s*\/\s*USD)?/gi`.
The trailing currency group is optional; its third alternative is dead code
because `CAD` is tried (and succeeds) first. -/
def tryEbayAt : List Char → Option (Rat × List Char)
  | '$' :: r =>
    let r1 := r.dropWhile Char.isWhitespace
    let dr := takeDigits r1
    if dr.1 = [] then none
    else
      let fr := takeFrac dr.2
      let r2 := fr.2.dropWhile Char.isWhitespace
      let r3 := match matchLitCI "cad".data r2 with
        | some rr => rr
        | none =>
          match matchLitCI "usd".data r2 with
          | some rr => rr
          | none => r2
      some (decimalVal dr.1 fr.1, r3)
  | _ => none

/-- One attempt of `/s-item__price[^>]*>[\s$]*(\d+(?:\.\d+)?)/g`. -/
def trySpanAt (cs : List Char) : Option (Rat × List Char) := do
  let r ← matchLit "s-item__price".data cs
  let r1 := r.dropWhile (fun c => !(c == '>'))
  match r1 with
  | '>' :: r2 =>
    let r3 := r2.dropWhile (fun c => c.isWhitespace || c == '$')
    let dr := takeDigits r3
    if dr.1 = [] then none
    else
      let fr := takeFrac dr.2
      some (decimalVal dr.1 fr.1, fr.2)
  | _ => none

/-- The per-parse loop body of `parseEbayPrices` (range [50, 500], shared
seen set, `url` differs between the two scans); returns the points and the
updated seen set. -/
def ebayCollect (today url : String) (seen : List Rat) : List Rat → List SPoint × List Rat
  | [] => ([], seen)
  | a :: as =>
    if 50 ≤ a ∧ a ≤ 500 ∧ a ∉ seen then
      let r := ebayCollect today url (a :: seen) as
      (⟨today, "sale", a, "USD", "ebay", url, none⟩ :: r.1, r.2)
    else ebayCollect today url seen as

/-- Model of `parseEbayPrices`. -/
def parseEbayPrices (today : String) (html : String) : List SPoint :=
  let cs := html.data
  let r1 := ebayCollect today EBAY_SOLD [] (scanMatches tryEbayAt cs)
  let r2 := ebayCollect today EBAY_LISTINGS r1.2 (scanMatches trySpanAt cs)
  r1.1 ++ r2.1

/-! #### The primary-page extractor (`parsePriceFromHtml`, update-data.mjs:65–85) -/

/-- Result of `parsePriceFromHtml`. -/
structure ParsedPrice where
  current : Option Rat
  regular : Option Rat
  currency : String
deriving DecidableEq, Repr

/-- One attempt of `/"priceCurrency"\s*:\s*"([A-Z]{3})"/i` (under `/i` the
class `[A-Z]` matches any ASCII letter; the capture keeps original case). -/
def tryCurrencyAt (cs : List Char) : Option String := do
  let r ← matchLitCI "\"pricecurrency\"".data cs
  let r := r.dropWhile Char.isWhitespace
  let r ← match r with
    | ':' :: t => some t
    | _ => none
  let r := r.dropWhile Char.isWhitespace
  match r with
  | '"' :: a :: b :: c :: '"' :: _ =>
    if a.isAlpha && b.isAlpha && c.isAlpha then some (String.mk [a, b, c]) else none
  | _ => none

/-- One attempt of `/"price"\s*:\s*"?([0-9]+(?:\.[0-9]+)?)"?/i`. -/
def tryJsonPriceAt (cs : List Char) : Option Rat := do
  let r ← matchLitCI "\"price\"".data cs
  let r := r.dropWhile Char.isWhitespace
  let r ← match r with
    | ':' :: t => some t
    | _ => none
  let r := r.dropWhile Char.isWhitespace
  let r := match r with
    | '"' :: t => t
    | t => t
  let dr := takeDigits r
  if dr.1 = [] then none
  else
    let fr := takeFrac dr.2
    some (decimalVal dr.1 fr.1)

/-- One attempt of `/\$\s*([0-9]+(?:\.[0-9]{2})?)/` (fraction is exactly two
digits or absent). -/
def tryTextPriceAt : List Char → Option Rat
  | '$' :: r =>
    let r1 := r.dropWhile Char.isWhitespace
    let dr := takeDigits r1
    if dr.1 = [] then none
    else
      match dr.2 with
      | '.' :: cs2 =>
        let fr := takeDigitsUpTo 2 cs2
        if fr.1.length = 2 then some (decimalVal dr.1 fr.1)
        else some (decimalVal dr.1 [])
      | _ => some (decimalVal dr.1 [])
  | _ => none

/-- Model of `parsePriceFromHtml`: JSON-LD currency and price, else the
visible `$…` fallback; `regular` is always `null` for this source. -/
def parsePriceFromHtml (html : String) : ParsedPrice :=
  let cs := html.data
  let jsonLdCurrency := firstMatch tryCurrencyAt cs
  let jsonLdPrice := firstMatch tryJsonPriceAt cs
  let textPrice := firstMatch tryTextPriceAt cs
  { current :=
      match jsonLdPrice with
      | some v => some v
      | none => textPrice
    regular := none
    currency := upperStr (jsonLdCurrency.getD "CAD") }

/-! ### Currency conversion and point construction (update-data.mjs) -/

/-- Primary source constants (update-data.mjs:20–25). -/
def ARCTERYX_ID : String := "arcteryx-ca"

/-- The primary product page URL. -/
def ARCTERYX_URL : String := "https://arcteryx.com/ca/en/shop/bucket-hat-9477"

/-- Conversion metadata `{ pair, rate, source, date }`. -/
def mkFx (cur : String) (rate : Rat) (date : String) : FxMeta :=
  ⟨cur ++ "/CAD", rate, "frankfurter.app", date⟩

/-- The live (`sale`) and MSRP points pushed for the primary page
(update-data.mjs:165–195); the caller passes `rate = 1` when
`fxFrom = "CAD"`. -/
def primaryPoints (parsed : ParsedPrice) (fxFrom : String) (rate : Rat) (today : String) :
    List Point :=
  (match parsed.current with
   | some v =>
     [⟨today, "sale", v, fxFrom, round2 (ratMul v rate),
       if fxFrom = "CAD" then none else some (mkFx fxFrom rate today),
       ARCTERYX_ID, ARCTERYX_URL, none⟩]
   | none => []) ++
  (match parsed.regular with
   | some v =>
     [⟨today, "msrp", v, fxFrom, round2 (ratMul v rate),
       if fxFrom = "CAD" then none else some (mkFx fxFrom rate today),
       ARCTERYX_ID, ARCTERYX_URL, none⟩]
   | none => [])

/-- Model of `isoDateFromWaybackTimestamp` (`YYYYMMDDhhmmss` slices). -/
def isoDateFromWaybackTimestamp (ts : String) : String :=
  String.mk (ts.data.take 4) ++ "-" ++ String.mk ((ts.data.drop 4).take 2)
    ++ "-" ++ String.mk ((ts.data.drop 6).take 2)

/-- External world of one `buildSeries` run: page fetches, the FX service,
the Wayback CDX index, and the supplementary file load.  `supp` is the result
of `loadSupplementaryPoints` (absence of the file is already `ok []` there;
an error models a read or JSON parse failure, which that function rethrows). -/
structure Env where
  fetch : String → Except String String
  fx : String → String → String → Except String Rat
  cdx : Except String (List String)
  supp : Except String (List SPoint)

instance exceptDecEq {ε α : Type} [DecidableEq ε] [DecidableEq α] :
    DecidableEq (Except ε α) := fun a b =>
  match a, b with
  | .ok x, .ok y =>
    if h : x = y then .isTrue (congrArg Except.ok h)
    else .isFalse (fun hc => h (Except.ok.inj hc))
  | .error x, .error y =>
    if h : x = y then .isTrue (congrArg Except.error h)
    else .isFalse (fun hc => h (Except.error.inj hc))
  | .ok _, .error _ => .isFalse (fun hc => Except.noConfusion hc)
  | .error _, .ok _ => .isFalse (fun hc => Except.noConfusion hc)

/-- Snapshot page URL for a Wayback timestamp. -/
def waybackUrl (ts : String) : String :=
  "https://web.archive.org/web/" ++ ts ++ "/" ++ ARCTERYX_URL

/-- Points contributed by one Wayback snapshot (update-data.mjs:205–258):
a failed page fetch, a priceless page, or a failed FX lookup skip the
snapshot; otherwise sale/msrp points carrying `wayback` metadata are pushed. -/
def snapPoints (env : Env) (ts : String) : List Point :=
  match env.fetch (waybackUrl ts) with
  | .error _ => []
  | .ok html =>
    let p := parsePriceFromHtml html
    if p.current = none ∧ p.regular = none then []
    else
      let snapFrom := upperStr p.currency
      let dateISO := isoDateFromWaybackTimestamp ts
      match (if snapFrom = "CAD" then Except.ok 1 else env.fx dateISO snapFrom "CAD") with
      | .error _ => []
      | .ok rate =>
        (match p.current with
         | some v =>
           [⟨dateISO, "sale", v, snapFrom, round2 (ratMul v rate),
             if snapFrom = "CAD" then none else some (mkFx snapFrom rate dateISO),
             ARCTERYX_ID, ARCTERYX_URL, some ts⟩]
         | none => []) ++
        (match p.regular with
         | some v =>
           [⟨dateISO, "msrp", v, snapFrom, round2 (ratMul v rate),
             if snapFrom = "CAD" then none else some (mkFx snapFrom rate dateISO),
             ARCTERYX_ID, ARCTERYX_URL, some ts⟩]
         | none => [])

/-- All historical points: an unavailable CDX index degrades to no
historical points (update-data.mjs:197–203). -/
def historicalPoints (env : Env) : List Point :=
  match env.cdx with
  | .error _ => []
  | .ok tss => (tss.map (snapPoints env)).flatten

/-- Conversion of one supplementary point (update-data.mjs:263–285): the JS
falsiness validation, the `USD` currency default with upper-casing, the
`rate = 1` short circuit for CAD, the skip on a failed FX lookup, and the
coercion of any non-`msrp` kind to `sale`. -/
def convertSupplementary (fx : String → String → String → Except String Rat)
    (pt : SPoint) : Option Point :=
  if pt.date = "" ∨ pt.kind = "" ∨ pt.amount = 0 ∨ pt.sourceId = "" ∨ pt.url = "" then none
  else
    let currency := upperStr (if pt.currency = "" then "USD" else pt.currency)
    match (if currency = "CAD" then Except.ok 1 else fx pt.date currency "CAD") with
    | .error _ => none
    | .ok rate =>
      some ⟨pt.date, if pt.kind = "msrp" then "msrp" else "sale", pt.amount, currency,
            round2 (ratMul pt.amount rate),
            if currency = "CAD" then none else some (mkFx currency rate pt.date),
            pt.sourceId, pt.url, pt.wayback⟩

/-- The supplementary conversion loop (`continue` skips a point). -/
def convertSupplementaryList (fx : String → String → String → Except String Rat)
    (pts : List SPoint) : List Point :=
  pts.filterMap (convertSupplementary fx)

/-- The merge/dedupe/sort stage of `buildSeries` applied to the primary,
historical and supplementary point lists in their concatenation order
(update-data.mjs:288–298). -/
def mergeSeries (primary historical supplementary : List Point) : List Point :=
  sortByDate (dedupe (primary ++ historical ++ supplementary))

/-- One `buildSeries` run (update-data.mjs:152–316), as a function of the
external world.  Failures that the script does not catch surface as
`Except.error` (which `main` turns into a non-zero exit): the primary page
fetch, the FX lookup for the primary point when the parsed currency is not
CAD, the supplementary file load, and the date-spread of an ill-dated
multi-point group (a JS `RangeError` from `toISOString`). -/
def buildSeries (env : Env) (today : String) (includeWayback : Bool) :
    Except String (List Point) :=
  match env.fetch ARCTERYX_URL with
  | .error e => .error e
  | .ok html =>
    let parsed := parsePriceFromHtml html
    let fxFrom := upperStr parsed.currency
    match (if fxFrom = "CAD" then Except.ok 1 else env.fx today fxFrom "CAD") with
    | .error e => .error e
    | .ok rate =>
      match env.supp with
      | .error e => .error e
      | .ok suppRaw =>
        match spreadSupplementaryDates suppRaw with
        | none => .error "Invalid time value"
        | some spreadPts =>
          .ok (mergeSeries (primaryPoints parsed fxFrom rate today)
                (if includeWayback then historicalPoints env else [])
                (convertSupplementaryList env.fx spreadPts))

/-! ### Wayback snapshot sampling (part_002:134–139, `fetchEbayFromWayback`) -/

/-- The bounded snapshot sample: indices `0`, every multiple of `step`, and
the last index, then a `slice(0, maxSnapshots)` cap. -/
def sampleSnapshots {α : Type} (snapshots : List α) (maxSnapshots : Nat) : List α :=
  let n := snapshots.length
  let step := max 1 ((n - 1) / max 1 (maxSnapshots - 2))
  (((List.range n).zip snapshots).filterMap
    (fun p => if p.1 % step = 0 ∨ p.1 = n - 1 then some p.2 else none)).take maxSnapshots

/-! ### Supplementary store refresh (part_002:218–231, fetch-marketplace `main`) -/

/-- The store update at the end of a marketplace fetch run: stored `ebay`
points are discarded when the run produced at least one new `ebay` point;
the store is rewritten (sorted by date then amount) whenever there is
anything new, and left untouched otherwise. -/
def mergeSupplementaryStore (supplementary newPoints : List SPoint) : List SPoint :=
  let hasNewEbay := newPoints.any (fun p => p.sourceId == "ebay")
  let supp := if hasNewEbay then supplementary.filter (fun p => !(p.sourceId == "ebay"))
              else supplementary
  if newPoints.length > 0 ∨ hasNewEbay then sortByDateAmount (supp ++ newPoints)
  else supplementary

/-! ### Helper lemmas for the claims -/

theorem grailedCollect_cons (today : String) (seen : List Rat) (a : Rat) (as : List Rat) :
    grailedCollect today seen (a :: as)
      = if 80 ≤ a ∧ a ≤ 350 ∧ a ∉ seen then
          ⟨today, "sale", a, "USD", "grailed", GRAILED_SEARCH, none⟩
            :: grailedCollect today (a :: seen) as
        else grailedCollect today seen as := rfl

theorem grailedCollect_sound (today : String) :
    ∀ (amounts seen : List Rat),
      (∀ p ∈ grailedCollect today seen amounts,
        80 ≤ p.amount ∧ p.amount ≤ 350 ∧ p.amount ∉ seen)
      ∧ ((grailedCollect today seen amounts).map (fun p => p.amount)).Nodup := by
  intro amounts
  induction amounts with
  | nil => intro seen; simp [grailedCollect]
  | cons a as ih =>
    intro seen
    by_cases hc : 80 ≤ a ∧ a ≤ 350 ∧ a ∉ seen
    · rw [grailedCollect_cons, if_pos hc]
      obtain ⟨ihs, ihn⟩ := ih (a :: seen)
      constructor
      · intro p hp
        rcases List.mem_cons.mp hp with rfl | hp
        · exact ⟨hc.1, hc.2.1, hc.2.2⟩
        · obtain ⟨h1, h2, h3⟩ := ihs p hp
          exact ⟨h1, h2, fun hm => h3 (List.mem_cons_of_mem _ hm)⟩
      · rw [List.map_cons, List.nodup_cons]
        refine ⟨fun hmem => ?_, ihn⟩
        rw [List.mem_map] at hmem
        obtain ⟨q, hq, hqa⟩ := hmem
        exact (ihs q hq).2.2 (by rw [hqa]; exact List.mem_cons_self a seen)
    · rw [grailedCollect_cons, if_neg hc]
      exact ih seen

theorem sortByDateAmount_perm (l : List SPoint) :
    List.Perm (sortByDateAmount l) l :=
  List.perm_insertionSort spDateAmountLe l

theorem sortByDate_perm (l : List Point) :
    List.Perm (sortByDate l) l :=
  List.perm_insertionSort ptDateLe l

theorem ratMul_one (v : Rat) : ratMul v 1 = v := by rw [ratMul_eq, mul_one]

theorem round2_cents_ratMul {x : Rat} (h : (ratMul x 100).den = 1) : round2 x = x :=
  round2_cents (by rwa [ratMul_eq] at h)

theorem mergeSeries_mem {p : Point} {a b c : List Point} (hp : p ∈ mergeSeries a b c) :
    p ∈ a ∨ p ∈ b ∨ p ∈ c := by
  unfold mergeSeries at hp
  have h1 := (sortByDate_perm _).mem_iff.mp hp
  have h2 := mem_of_mem_dedupe h1
  simpa using h2

/-- Decompose membership in a successful `buildSeries` run into the three
construction sites; at the primary site the rate is 1 whenever the parsed
currency is CAD (line 161's short circuit). -/
theorem buildSeries_mem {env : Env} {today : String} {w : Bool} {out : List Point}
    {p : Point} (hrun : buildSeries env today w = .ok out) (hp : p ∈ out) :
    (∃ html rate, env.fetch ARCTERYX_URL = .ok html
      ∧ (upperStr (parsePriceFromHtml html).currency = "CAD" → rate = 1)
      ∧ p ∈ primaryPoints (parsePriceFromHtml html)
            (upperStr (parsePriceFromHtml html).currency) rate today)
  ∨ p ∈ historicalPoints env
  ∨ (∃ pts, p ∈ convertSupplementaryList env.fx pts) := by
  unfold buildSeries at hrun
  cases hf : env.fetch ARCTERYX_URL with
  | error e => rw [hf] at hrun; exact absurd hrun (by simp)
  | ok html =>
    rw [hf] at hrun
    dsimp only at hrun
    cases hr : (if upperStr (parsePriceFromHtml html).currency = "CAD"
        then Except.ok (1 : Rat)
        else env.fx today (upperStr (parsePriceFromHtml html).currency) "CAD") with
    | error e => rw [hr] at hrun; exact absurd hrun (by simp)
    | ok rate =>
      rw [hr] at hrun
      dsimp only at hrun
      cases hs : env.supp with
      | error e => rw [hs] at hrun; exact absurd hrun (by simp)
      | ok suppRaw =>
        rw [hs] at hrun
        dsimp only at hrun
        cases hsp : spreadSupplementaryDates suppRaw with
        | none => rw [hsp] at hrun; exact absurd hrun (by simp)
        | some spreadPts =>
          rw [hsp] at hrun
          dsimp only at hrun
          have hout := Except.ok.inj hrun
          rw [← hout] at hp
          rcases mergeSeries_mem hp with hm | hm | hm
          · refine Or.inl ⟨html, rate, rfl, fun hcad => ?_, hm⟩
            rw [if_pos hcad] at hr
            exact (Except.ok.inj hr).symm
          · cases w with
            | true => exact Or.inr (Or.inl hm)
            | false => simp at hm
          · exact Or.inr (Or.inr ⟨spreadPts, hm⟩)

theorem primaryPoints_mem {p : Point} {parsed : ParsedPrice} {fxFrom : String}
    {rate : Rat} {today : String} (hp : p ∈ primaryPoints parsed fxFrom rate today) :
    ∃ v kind, (kind = "sale" ∨ kind = "msrp")
      ∧ p = ⟨today, kind, v, fxFrom, round2 (ratMul v rate),
             if fxFrom = "CAD" then none else some (mkFx fxFrom rate today),
             ARCTERYX_ID, ARCTERYX_URL, none⟩ := by
  unfold primaryPoints at hp
  rcases List.mem_append.mp hp with hp | hp
  · cases hc : parsed.current with
    | none => rw [hc] at hp; simp at hp
    | some v =>
      rw [hc] at hp
      simp only [List.mem_singleton] at hp
      exact ⟨v, "sale", Or.inl rfl, hp⟩
  · cases hc : parsed.regular with
    | none => rw [hc] at hp; simp at hp
    | some v =>
      rw [hc] at hp
      simp only [List.mem_singleton] at hp
      exact ⟨v, "msrp", Or.inr rfl, hp⟩

theorem snapPoints_mem {p : Point} {env : Env} {ts : String}
    (hp : p ∈ snapPoints env ts) :
    ∃ v kind snapFrom rate, (kind = "sale" ∨ kind = "msrp")
      ∧ (snapFrom = "CAD" → rate = 1)
      ∧ p = ⟨isoDateFromWaybackTimestamp ts, kind, v, snapFrom, round2 (ratMul v rate),
             if snapFrom = "CAD" then none
             else some (mkFx snapFrom rate (isoDateFromWaybackTimestamp ts)),
             ARCTERYX_ID, ARCTERYX_URL, some ts⟩ := by
  unfold snapPoints at hp
  cases hf : env.fetch (waybackUrl ts) with
  | error e => rw [hf] at hp; simp at hp
  | ok html =>
    rw [hf] at hp
    dsimp only at hp
    split at hp
    · simp at hp
    · cases hr : (if upperStr (parsePriceFromHtml html).currency = "CAD"
          then Except.ok (1 : Rat)
          else env.fx (isoDateFromWaybackTimestamp ts)
                 (upperStr (parsePriceFromHtml html).currency) "CAD") with
      | error e => rw [hr] at hp; simp at hp
      | ok rate =>
        rw [hr] at hp
        have hrel : upperStr (parsePriceFromHtml html).currency = "CAD" → rate = 1 := by
          intro hcad
          rw [if_pos hcad] at hr
          exact (Except.ok.inj hr).symm
        rcases List.mem_append.mp hp with hp | hp
        · cases hc : (parsePriceFromHtml html).current with
          | none => rw [hc] at hp; simp at hp
          | some v =>
            rw [hc] at hp
            simp only [List.mem_singleton] at hp
            exact ⟨v, "sale", _, rate, Or.inl rfl, hrel, hp⟩
        · cases hc : (parsePriceFromHtml html).regular with
          | none => rw [hc] at hp; simp at hp
          | some v =>
            rw [hc] at hp
            simp only [List.mem_singleton] at hp
            exact ⟨v, "msrp", _, rate, Or.inr rfl, hrel, hp⟩

theorem historicalPoints_mem {p : Point} {env : Env} (hp : p ∈ historicalPoints env) :
    ∃ ts, p ∈ snapPoints env ts := by
  unfold historicalPoints at hp
  cases hc : env.cdx with
  | error e => rw [hc] at hp; simp at hp
  | ok tss =>
    rw [hc] at hp
    rw [List.mem_flatten] at hp
    obtain ⟨l, hl, hpl⟩ := hp
    rw [List.mem_map] at hl
    obtain ⟨ts, _, rfl⟩ := hl
    exact ⟨ts, hpl⟩

theorem convertSupplementary_some {fx : String → String → String → Except String Rat}
    {pt : SPoint} {p : Point} (h : convertSupplementary fx pt = some p) :
    ∃ currency rate, (currency = "CAD" → rate = 1)
      ∧ p = ⟨pt.date, if pt.kind = "msrp" then "msrp" else "sale", pt.amount, currency,
             round2 (ratMul pt.amount rate),
             if currency = "CAD" then none else some (mkFx currency rate pt.date),
             pt.sourceId, pt.url, pt.wayback⟩ := by
  unfold convertSupplementary at h
  split at h
  · exact absurd h (by simp)
  · dsimp only at h
    cases hr : (if upperStr (if pt.currency = "" then "USD" else pt.currency) = "CAD"
        then Except.ok (1 : Rat)
        else fx pt.date (upperStr (if pt.currency = "" then "USD" else pt.currency)) "CAD") with
    | error e => rw [hr] at h; exact absurd h (by simp)
    | ok rate =>
      rw [hr] at h
      have hrel : upperStr (if pt.currency = "" then "USD" else pt.currency) = "CAD"
          → rate = 1 := by
        intro hcad
        rw [if_pos hcad] at hr
        exact (Except.ok.inj hr).symm
      exact ⟨_, rate, hrel, (Option.some.inj h).symm⟩

theorem convertSupplementaryList_mem {fx : String → String → String → Except String Rat}
    {pts : List SPoint} {p : Point} (hp : p ∈ convertSupplementaryList fx pts) :
    ∃ pt, convertSupplementary fx pt = some p := by
  unfold convertSupplementaryList at hp
  rw [List.mem_filterMap] at hp
  obtain ⟨pt, _, hc⟩ := hp
  exact ⟨pt, hc⟩

/-! ### C3 -/

/-- C3: the merge/dedupe/sort stage is a deterministic function of its input
point lists — re-running on identical inputs reproduces the identical
ordered series and dedup key set — and the output is sorted ascending by
date (`ptDateLe`, the lexicographic model of `localeCompare`; ties keep the
deterministic dedupe order because the modelled sort is stable). -/
theorem c3_merge_deterministic_sorted (p h s : List Point) :
    mergeSeries p h s = mergeSeries p h s
  ∧ (mergeSeries p h s).map dedupKey = (mergeSeries p h s).map dedupKey
  ∧ List.Sorted ptDateLe (mergeSeries p h s) :=
  ⟨rfl, rfl, List.sorted_insertionSort ptDateLe (dedupe (p ++ h ++ s))⟩

/-! ### C6 -/

/-- C6: code-bug exhibit for the Wayback sampling step.  With 30 sorted
snapshots and a cap of 10 the sampled indices are 0, 3, …, 27: the
`slice(0, maxSnapshots)` cap cuts off the final index, so the latest
snapshot (index 29) is not in the sample, contradicting the claim (and the
code's own comment "oldest, newest, and evenly in between"). -/
theorem c6_sample_cap_drops_latest :
    sampleSnapshots (List.range 30) 10 = [0, 3, 6, 9, 12, 15, 18, 21, 24, 27]
  ∧ (List.range 30).getLast? = some 29
  ∧ 29 ∉ sampleSnapshots (List.range 30) 10 := by decide

/-! ### C8 -/

/-- C8: every amount emitted by the Grailed extractor lies in the sane range
[80, 350], identical amounts are emitted at most once per page parse, and on
a page containing `"price":"5"` and `"price":"199.99"` only 199.99 is
extracted (5 is rejected: the pattern wants 2–3 integer digits and the range
filter would drop it anyway). -/
theorem c8_grailed_range_dedup_example (today html : String) :
    (∀ p ∈ parseGrailedPrices today html, 80 ≤ p.amount ∧ p.amount ≤ 350)
  ∧ ((parseGrailedPrices today html).map (fun p => p.amount)).Nodup
  ∧ parseGrailedPrices today "\"price\":\"5\",\"price\":\"199.99\""
      = [⟨today, "sale", mkRat 19999 100, "USD", "grailed", GRAILED_SEARCH, none⟩] := by
  refine ⟨?_, ?_, ?_⟩
  · intro p hp
    have h := (grailedCollect_sound today _ []).1 p hp
    exact ⟨h.1, h.2.1⟩
  · exact (grailedCollect_sound today _ []).2
  · rfl

/-- C8 witness: the range bound applied to the concrete extraction. -/
theorem c8_grailed_range_dedup_example_witness :
    80 ≤ (mkRat 19999 100 : Rat) ∧ (mkRat 19999 100 : Rat) ≤ 350 := by
  have h := (c8_grailed_range_dedup_example "2024-01-01"
      "\"price\":\"5\",\"price\":\"199.99\"").1
    ⟨"2024-01-01", "sale", mkRat 19999 100, "USD", "grailed", GRAILED_SEARCH, none⟩
    (by decide)
  exact h

/-! ### C9 -/

/-- C9: the extractors are total functions of the input text (the embedding
is a plain function, mirroring that the JS code only uses non-throwing
`match`/`matchAll`), and on inputs with no price-like markup — empty text
and plain markup — they return the no-price result (empty candidate list /
all-null fields) rather than an error. -/
theorem c9_extractors_no_match_is_normal (today : String) :
    parseGrailedPrices today "" = []
  ∧ parseEbayPrices today "" = []
  ∧ parsePriceFromHtml "" = ⟨none, none, "CAD"⟩
  ∧ parseGrailedPrices today "<div>no markup</div>" = []
  ∧ parseEbayPrices today "<div>no markup</div>" = []
  ∧ parsePriceFromHtml "<div>no markup</div>" = ⟨none, none, "CAD"⟩ :=
  ⟨rfl, rfl, rfl, rfl, rfl, rfl⟩

/-! ### C5 -/

/-- A stored Grailed point and a fresh Grailed point with a different
(date, amount) — a "new point for sourceId grailed". -/
def grailedStored : SPoint := ⟨"2024-01-01", "sale", 100, "USD", "grailed", "https://g", none⟩

/-- The fresh Grailed point of the C5 counterexample. -/
def grailedNew : SPoint := ⟨"2024-01-02", "sale", 120, "USD", "grailed", "https://g", none⟩

/-- C5 counterexample: the claim asserts the refresh rule for *every*
sourceId, but the code only refreshes `ebay`.  A run that produces a new
`grailed` point keeps the previously stored `grailed` points. -/
theorem c5_counterexample :
    grailedNew.sourceId = grailedStored.sourceId
  ∧ mergeSupplementaryStore [grailedStored] [grailedNew] = [grailedStored, grailedNew]
  ∧ grailedStored ∈ mergeSupplementaryStore [grailedStored] [grailedNew] := by decide

/-- C5 amended: the refresh rule is specific to `ebay`: when a run yields at
least one new `ebay` point, the stored `ebay` points are replaced by exactly
the new ones; points of every other sourceId are never discarded (stored and
new ones are all kept, merely re-sorted). -/
theorem c5_refresh_is_ebay_only (store newPts : List SPoint) (s : String)
    (hs : s ≠ "ebay")
    (hNew : newPts.any (fun p => p.sourceId == "ebay") = true) :
    List.Perm ((mergeSupplementaryStore store newPts).filter (fun p => p.sourceId == "ebay"))
      (newPts.filter (fun p => p.sourceId == "ebay"))
  ∧ List.Perm ((mergeSupplementaryStore store newPts).filter (fun p => p.sourceId == s))
      (store.filter (fun p => p.sourceId == s) ++ newPts.filter (fun p => p.sourceId == s)) := by
  have hne : newPts.length > 0 := by
    cases newPts with
    | nil => simp at hNew
    | cons a as => simp
  have hstep : mergeSupplementaryStore store newPts
      = sortByDateAmount ((store.filter (fun p => !(p.sourceId == "ebay"))) ++ newPts) := by
    simp only [mergeSupplementaryStore]
    rw [hNew]
    simp [hne]
  rw [hstep]
  have hperm := sortByDateAmount_perm ((store.filter (fun p => !(p.sourceId == "ebay"))) ++ newPts)
  constructor
  · refine (hperm.filter _).trans ?_
    rw [List.filter_append, List.filter_filter]
    rw [show (store.filter fun a => (a.sourceId == "ebay") && !(a.sourceId == "ebay")) = [] from by
      rw [show (fun (a : SPoint) => (a.sourceId == "ebay") && !(a.sourceId == "ebay"))
          = fun _ => false from by funext a; exact Bool.and_not_self _]
      exact List.filter_false _]
    simp
  · refine (hperm.filter _).trans ?_
    rw [List.filter_append, List.filter_filter]
    rw [List.filter_congr (q := fun p => p.sourceId == s) ?_]
    intro x _
    by_cases hx : x.sourceId = s
    · have hxe : ¬ (x.sourceId == "ebay") = true := by
        simp only [beq_iff_eq, hx]
        exact hs
      simp only [hx, hxe]
      simp [hs]
    · simp [hx]

/-- The spec example: five stored eBay points. -/
def ebayStoreFixture : List SPoint :=
  [⟨"2024-01-01", "sale", 101, "USD", "ebay", "https://e", none⟩,
   ⟨"2024-01-01", "sale", 102, "USD", "ebay", "https://e", none⟩,
   ⟨"2024-01-02", "sale", 103, "USD", "ebay", "https://e", none⟩,
   ⟨"2024-01-03", "sale", 104, "USD", "ebay", "https://e", none⟩,
   ⟨"2024-01-04", "sale", 105, "USD", "ebay", "https://e", none⟩,
   ⟨"2024-01-05", "sale", 90, "USD", "grailed", "https://g", none⟩]

/-- The spec example: two fresh eBay points. -/
def ebayNewFixture : List SPoint :=
  [⟨"2024-02-01", "sale", 110, "USD", "ebay", "https://e", none⟩,
   ⟨"2024-02-02", "sale", 111, "USD", "ebay", "https://e", none⟩]

/-- C5 amended, witnessed on the spec's own example: 5 stored ebay points
plus 2 fresh ebay points leave exactly the 2 new ebay points, and the
grailed point is untouched. -/
theorem c5_refresh_is_ebay_only_witness :
    List.Perm ((mergeSupplementaryStore ebayStoreFixture ebayNewFixture).filter
        (fun p => p.sourceId == "ebay"))
      (ebayNewFixture.filter (fun p => p.sourceId == "ebay"))
  ∧ List.Perm ((mergeSupplementaryStore ebayStoreFixture ebayNewFixture).filter
        (fun p => p.sourceId == "grailed"))
      (ebayStoreFixture.filter (fun p => p.sourceId == "grailed")
        ++ ebayNewFixture.filter (fun p => p.sourceId == "grailed")) :=
  c5_refresh_is_ebay_only ebayStoreFixture ebayNewFixture "grailed"
    (by decide) (by decide)

/-! ### C4 -/

/-- An FX oracle that always fails (never consulted on the CAD path). -/
def fxUnavailable : String → String → String → Except String Rat :=
  fun _ _ _ => .error "unavailable"

/-- A CAD supplementary point whose amount (0.125, exactly representable in
a JS double) is not a whole number of cents. -/
def cadEighth : SPoint := ⟨"2024-01-01", "sale", mkRat 1 8, "CAD", "manual", "https://m", none⟩

/-- C4 counterexample: the conversion applies `toFixed(2)` even at rate 1,
so for a CAD point with amount 1/8 the emitted `priceCad.amount` is 0.13,
not equal to `price.amount` — the claimed exact equality fails (no `fx`
metadata is attached, as claimed). -/
theorem c4_counterexample :
    convertSupplementary fxUnavailable cadEighth
      = some ⟨"2024-01-01", "sale", mkRat 1 8, "CAD", mkRat 13 100, none,
              "manual", "https://m", none⟩
  ∧ (mkRat 13 100 : Rat) ≠ mkRat 1 8 := by decide

/-- C4 amended: every emitted point whose native currency is the display
currency CAD carries no `fx` metadata, and its `priceCad.amount` equals
`price.amount` rounded to two decimals — hence equals it exactly whenever the
native amount is a whole number of cents. -/
theorem c4_cad_identity (env : Env) (today : String) (w : Bool) (out : List Point)
    (p : Point) (hrun : buildSeries env today w = .ok out) (hp : p ∈ out)
    (hcur : p.priceCurrency = "CAD") :
    p.fx = none
  ∧ p.priceCadAmount = round2 p.priceAmount
  ∧ ((ratMul p.priceAmount 100).den = 1 → p.priceCadAmount = p.priceAmount) := by
  have hmain : p.fx = none ∧ p.priceCadAmount = round2 p.priceAmount := by
    rcases buildSeries_mem hrun hp with ⟨html, rate, _, hrel, hmem⟩ | hmem | ⟨pts, hmem⟩
    · obtain ⟨v, kind, _, rfl⟩ := primaryPoints_mem hmem
      have hcad : upperStr (parsePriceFromHtml html).currency = "CAD" := hcur
      have h1 : rate = 1 := hrel hcad
      subst h1
      rw [ratMul_one]
      exact ⟨by simp [hcad], rfl⟩
    · obtain ⟨ts, hts⟩ := historicalPoints_mem hmem
      obtain ⟨v, kind, snapFrom, rate, _, hrel, rfl⟩ := snapPoints_mem hts
      have hcad : snapFrom = "CAD" := hcur
      have h1 : rate = 1 := hrel hcad
      subst h1
      rw [ratMul_one]
      exact ⟨by simp [hcad], rfl⟩
    · obtain ⟨pt, hc⟩ := convertSupplementaryList_mem hmem
      obtain ⟨currency, rate, hrel, rfl⟩ := convertSupplementary_some hc
      have hcad : currency = "CAD" := hcur
      have h1 : rate = 1 := hrel hcad
      subst h1
      rw [ratMul_one]
      exact ⟨by simp [hcad], rfl⟩
  refine ⟨hmain.1, hmain.2, fun hden => ?_⟩
  rw [hmain.2]
  exact round2_cents_ratMul hden

/-- A world where the primary page is a CAD product page and every other
external service is down. -/
def envCadFixture : Env :=
  { fetch := fun u =>
      if u = ARCTERYX_URL then .ok "\"priceCurrency\":\"CAD\",\"price\":\"225.00\""
      else .error "HTTP 404"
    fx := fun _ _ _ => .error "down"
    cdx := .error "down"
    supp := .ok [] }

/-- The single point the `envCadFixture` run emits. -/
def ptCad225 : Point :=
  ⟨"2025-01-02", "sale", 225, "CAD", 225, none, ARCTERYX_ID, ARCTERYX_URL, none⟩

/-- C4 amended, witnessed on a concrete CAD run. -/
theorem c4_cad_identity_witness :
    ptCad225.fx = none ∧ ptCad225.priceCadAmount = ptCad225.priceAmount := by
  have h := c4_cad_identity envCadFixture "2025-01-02" false [ptCad225] ptCad225
    (by decide) (by decide) (by decide)
  exact ⟨h.1, h.2.2 (by decide)⟩

/-! ### C10 -/

/-- A supplementary entry whose `kind` is present but neither `sale` nor
`msrp`. -/
def kindListing : SPoint := ⟨"2024-02-03", "listing", 150, "CAD", "manual", "https://m", none⟩

/-- C10: every point of an emitted canonical series has kind exactly `sale`
or `msrp`; and a supplementary point with a present but unknown kind (here
`listing`) is not skipped as malformed — it is emitted with its kind coerced
to `sale`. -/
theorem c10_kinds (env : Env) (today : String) (w : Bool) (out : List Point)
    (p : Point) (hrun : buildSeries env today w = .ok out) (hp : p ∈ out) :
    (p.kind = "sale" ∨ p.kind = "msrp")
  ∧ convertSupplementary fxUnavailable kindListing
      = some ⟨"2024-02-03", "sale", 150, "CAD", 150, none, "manual", "https://m", none⟩ := by
  constructor
  · rcases buildSeries_mem hrun hp with ⟨html, rate, _, _, hmem⟩ | hmem | ⟨pts, hmem⟩
    · obtain ⟨v, kind, hkind, rfl⟩ := primaryPoints_mem hmem
      exact hkind
    · obtain ⟨ts, hts⟩ := historicalPoints_mem hmem
      obtain ⟨v, kind, snapFrom, rate, hkind, _, rfl⟩ := snapPoints_mem hts
      exact hkind
    · obtain ⟨pt, hc⟩ := convertSupplementaryList_mem hmem
      obtain ⟨currency, rate, _, rfl⟩ := convertSupplementary_some hc
      by_cases hk : pt.kind = "msrp"
      · right; simp [hk]
      · left; simp [hk]
  · decide

/-- C10 witness on the concrete CAD run. -/
theorem c10_kinds_witness :
    (ptCad225.kind = "sale" ∨ ptCad225.kind = "msrp")
  ∧ convertSupplementary fxUnavailable kindListing
      = some ⟨"2024-02-03", "sale", 150, "CAD", 150, none, "manual", "https://m", none⟩ :=
  c10_kinds envCadFixture "2025-01-02" false [ptCad225] ptCad225 (by decide) (by decide)

/-! ### Day counting (used to show the spread dates are distinct
consecutive calendar days) -/

/-- Days in the year before the first of month `m` (`b` = leap year). -/
def daysBefore (b : Bool) : Nat → Nat
  | 1 => 0
  | 2 => 31
  | 3 => if b then 60 else 59
  | 4 => if b then 91 else 90
  | 5 => if b then 121 else 120
  | 6 => if b then 152 else 151
  | 7 => if b then 182 else 181
  | 8 => if b then 213 else 212
  | 9 => if b then 244 else 243
  | 10 => if b then 274 else 273
  | 11 => if b then 305 else 304
  | 12 => if b then 335 else 334
  | _ => 0

/-- Day of year, 1-based. -/
def doy (d : Ymd) : Nat := daysBefore (isLeap d.year) d.month + d.day

/-- Length of a calendar year. -/
def yearDays (y : Nat) : Nat := if isLeap y then 366 else 365

/-- Days in all years before year `y`. -/
def daysUpToYear : Nat → Nat
  | 0 => 0
  | y + 1 => daysUpToYear y + yearDays y

/-- 1-based day index on the proleptic Gregorian timeline starting at
0000-01-01. -/
def rataDie (d : Ymd) : Nat := daysUpToYear d.year + doy d

theorem daysBefore_step (y m : Nat) (h2 : 2 ≤ m) (h12 : m ≤ 12) :
    daysBefore (isLeap y) m = daysBefore (isLeap y) (m - 1) + daysInMonth y (m - 1) := by
  cases hb : isLeap y <;>
    (interval_cases m <;> simp [daysBefore, daysInMonth, hb])

theorem doy_dec31 (y : Nat) : daysBefore (isLeap y) 12 + 31 = yearDays y := by
  cases hb : isLeap y <;> simp [daysBefore, yearDays, hb]

theorem rataDie_prevDay {d : Ymd} (hv : ValidYmd d)
    (hnc : 1 ≤ d.year ∨ 2 ≤ d.month ∨ 2 ≤ d.day) :
    rataDie (prevDay d) + 1 = rataDie d := by
  obtain ⟨h1, h2, h3, h4⟩ := hv
  unfold prevDay
  split
  · unfold rataDie doy
    dsimp only
    omega
  · split
    case isTrue hday hmon =>
      unfold rataDie doy
      dsimp only
      have hstep := daysBefore_step d.year d.month (by omega) h2
      omega
    case isFalse hday hmon =>
      have hm1 : d.month = 1 := by omega
      have hd1 : d.day = 1 := by omega
      have hy1 : 1 ≤ d.year := by omega
      unfold rataDie doy
      dsimp only
      have hlast := doy_dec31 (d.year - 1)
      have hup : daysUpToYear d.year = daysUpToYear (d.year - 1) + yearDays (d.year - 1) := by
        rw [show d.year = (d.year - 1) + 1 by omega]
        simp [daysUpToYear]
      rw [hm1, hd1]
      rw [show daysBefore (isLeap d.year) 1 = 0 from rfl]
      omega

theorem rataDie_pos {d : Ymd} (hv : ValidYmd d) : 1 ≤ rataDie d := by
  obtain ⟨_, _, h3, _⟩ := hv
  unfold rataDie doy
  omega

theorem nonclamp_of_two_le {d : Ymd} (hv : ValidYmd d) (h2 : 2 ≤ rataDie d) :
    1 ≤ d.year ∨ 2 ≤ d.month ∨ 2 ≤ d.day := by
  obtain ⟨hm1, hm2, hd1, hd2⟩ := hv
  by_contra hcon
  push_neg at hcon
  obtain ⟨hy, hm, hd⟩ := hcon
  have hy0 : d.year = 0 := by omega
  have hm0 : d.month = 1 := by omega
  have hd0 : d.day = 1 := by omega
  unfold rataDie doy at h2
  rw [hy0, hm0, hd0] at h2
  simp [daysUpToYear, daysBefore] at h2

theorem rataDie_prevDayIter {d : Ymd} (hv : ValidYmd d) :
    ∀ k, k + 1 ≤ rataDie d → rataDie (prevDayIter k d) + k = rataDie d := by
  intro k
  induction k with
  | zero => intro _; simp [prevDayIter]
  | succ n ih =>
    intro hk
    have hn := ih (by omega)
    have hvn : ValidYmd (prevDayIter n d) := prevDayIter_valid hv n
    have h2 : 2 ≤ rataDie (prevDayIter n d) := by omega
    have hnc := nonclamp_of_two_le hvn h2
    have hstep := rataDie_prevDay hvn hnc
    rw [show prevDayIter (n + 1) d = prevDay (prevDayIter n d) from rfl]
    omega

theorem daysUpToYear_ge {y : Nat} (hy : 1 ≤ y) : 366 ≤ daysUpToYear y := by
  induction y with
  | zero => omega
  | succ n ih =>
    by_cases hn : 1 ≤ n
    · have := ih hn
      have : 0 ≤ yearDays n := Nat.zero_le _
      simp only [daysUpToYear]
      omega
    · have hn0 : n = 0 := by omega
      subst hn0
      simp [daysUpToYear, yearDays, isLeap]

theorem rataDie_ge_366 {d : Ymd} (hv : ValidYmd d) (hy : 1 ≤ d.year) :
    366 ≤ rataDie d := by
  obtain ⟨_, _, h3, _⟩ := hv
  have := daysUpToYear_ge hy
  unfold rataDie doy
  omega

/-- Distinct backward steps from a valid date with year ≥ 1 land on distinct
dates, as long as both steps stay within 365 days. -/
theorem prevDayIter_inj {base : Ymd} (hv : ValidYmd base) (hy : 1 ≤ base.year)
    {i j : Nat} (hi : i ≤ 365) (hj : j ≤ 365) (hne : i ≠ j) :
    prevDayIter i base ≠ prevDayIter j base := by
  intro hcontr
  have h366 := rataDie_ge_366 hv hy
  have hri := rataDie_prevDayIter hv i (by omega)
  have hrj := rataDie_prevDayIter hv j (by omega)
  rw [hcontr] at hri
  omega

/-! ### C2 -/

/-- The set of supplementary points the spec groups on `(sourceId, date)`. -/
def sdGroup (pts : List SPoint) (s d : String) : List SPoint :=
  pts.filter (fun p => p.sourceId == s && p.date == d)

theorem skey_eq_iff {p : SPoint} {s d : String} (hp : '|' ∉ p.sourceId.data)
    (hs : '|' ∉ s.data) :
    skey p = s ++ "|" ++ d ↔ (p.sourceId = s ∧ p.date = d) := by
  constructor
  · intro h
    have hdata := congrArg String.data h
    rw [skey_data] at hdata
    have hsd : (s ++ "|" ++ d).data = s.data ++ '|' :: d.data := by
      simp [String.data_append]
    rw [hsd] at hdata
    obtain ⟨h1, h2⟩ := append_sep_inj '|' _ _ _ _ hp hs hdata
    exact ⟨String.ext h1, String.ext h2⟩
  · rintro ⟨h1, h2⟩
    simp [skey, h1, h2]

theorem skeyFilter_eq {pts : List SPoint} {s d : String}
    (hfree : ∀ p ∈ pts, '|' ∉ p.sourceId.data) (hs : '|' ∉ s.data) :
    pts.filter (fun p => skey p == s ++ "|" ++ d) = sdGroup pts s d := by
  apply List.filter_congr
  intro x hx
  have hiff := skey_eq_iff (p := x) (s := s) (d := d) (hfree x hx) hs
  apply Bool.eq_iff_iff.mpr
  simp only [beq_iff_eq, Bool.and_eq_true]
  exact hiff

theorem sdGroup_mem_groupByKey {pts : List SPoint} {s d : String}
    (hfree : ∀ p ∈ pts, '|' ∉ p.sourceId.data) (hG : sdGroup pts s d ≠ []) :
    '|' ∉ s.data ∧ (s ++ "|" ++ d, sdGroup pts s d) ∈ groupByKey pts := by
  obtain ⟨p0, hp0⟩ := List.exists_mem_of_ne_nil _ hG
  have hp0f := List.mem_filter.mp hp0
  have hp0pts := hp0f.1
  have hcond := hp0f.2
  simp only [Bool.and_eq_true, beq_iff_eq] at hcond
  have hs : '|' ∉ s.data := by rw [← hcond.1]; exact hfree p0 hp0pts
  refine ⟨hs, ?_⟩
  unfold groupByKey
  rw [← skeyFilter_eq hfree hs]
  apply List.mem_map.mpr
  refine ⟨s ++ "|" ++ d, ?_, rfl⟩
  apply mem_keysInOrder.mpr
  exact ⟨p0, hp0pts, by simp [skey, hcond.1, hcond.2]⟩

theorem redateGroup_length (base : Ymd) (n : Nat) :
    ∀ (i : Nat) (l : List SPoint), (redateGroup base n i l).length = l.length := by
  intro i l
  induction l generalizing i with
  | nil => simp [redateGroup]
  | cons p ps ih => simp [redateGroup, ih]

theorem redateGroup_get (base : Ymd) (n : Nat) :
    ∀ (l : List SPoint) (i0 j : Nat) (hj : j < l.length),
      (redateGroup base n i0 l).get
          ⟨j, by rw [redateGroup_length]; exact hj⟩
        = { l.get ⟨j, hj⟩ with
            date := renderISODate (prevDayIter (n - 1 - (i0 + j)) base) } := by
  intro l
  induction l with
  | nil => intro i0 j hj; simp at hj
  | cons p ps ih =>
    intro i0 j hj
    cases j with
    | zero => rfl
    | succ jj =>
      have hjj : jj < ps.length := Nat.lt_of_succ_lt_succ hj
      have harith : i0 + 1 + jj = i0 + (jj + 1) := by omega
      have hstep := ih (i0 + 1) jj hjj
      rw [show (redateGroup base n i0 (p :: ps)).get
            ⟨jj + 1, by rw [redateGroup_length]; exact hj⟩
          = (redateGroup base n (i0 + 1) ps).get
            ⟨jj, by rw [redateGroup_length]; exact hjj⟩ from rfl]
      rw [hstep, harith]
      rfl

theorem spreadGroup_small {g : List SPoint} (h : g.length ≤ 1) :
    spreadGroup g = some g := by
  unfold spreadGroup
  rw [if_pos h]

theorem spreadGroup_big {g : List SPoint} {hd : SPoint} {tl : List SPoint} {base : Ymd}
    (hlen : ¬ g.length ≤ 1) (hg : g = hd :: tl)
    (hparse : parseISODate hd.date = some base) :
    spreadGroup g = some (redateGroup base g.length 0 (sortByAmount g)) := by
  subst hg
  unfold spreadGroup
  rw [if_neg hlen]
  dsimp only
  rw [hparse]

theorem spread_parts {pts out : List SPoint}
    (h : spreadSupplementaryDates pts = some out) :
    ∃ parts, optionMapM (fun g => spreadGroup g.2) (groupByKey pts) = some parts
      ∧ out = sortByDateAmount parts.flatten := by
  unfold spreadSupplementaryDates at h
  cases hm : optionMapM (fun g => spreadGroup g.2) (groupByKey pts) with
  | none =>
    rw [hm] at h
    rw [show Option.map (fun (parts : List (List SPoint)) => sortByDateAmount parts.flatten)
        none = none from rfl] at h
    exact Option.noConfusion h
  | some parts =>
    rw [hm] at h
    rw [show Option.map (fun (parts : List (List SPoint)) => sortByDateAmount parts.flatten)
        (some parts) = some (sortByDateAmount parts.flatten) from rfl] at h
    exact ⟨parts, rfl, (Option.some.inj h).symm⟩

theorem group_sub_out {pts out : List SPoint}
    (h : spreadSupplementaryDates pts = some out)
    {k : String} {g lg : List SPoint}
    (hg : (k, g) ∈ groupByKey pts) (hsg : spreadGroup g = some lg) :
    ∀ x ∈ lg, x ∈ out := by
  obtain ⟨parts, hm, rfl⟩ := spread_parts h
  intro x hx
  obtain ⟨y, hy, hfy⟩ := optionMapM_mem _ _ _ hm (k, g) hg
  have hylg : y = lg := by
    rw [hsg] at hfy
    exact (Option.some.inj hfy).symm
  subst hylg
  have hxf : x ∈ parts.flatten := List.mem_flatten.mpr ⟨y, hy, hx⟩
  exact (sortByDateAmount_perm _).mem_iff.mpr hxf

theorem sortByAmount_length (g : List SPoint) :
    (sortByAmount g).length = g.length :=
  (List.perm_insertionSort spAmountLe g).length_eq

/-- The Grailed-style fixture refuting C2 via a `|`-collision in the group
key: `cq1`'s true `(sourceId, date)` group is a singleton, yet it is grouped
with `cq2` and re-dated. -/
def cq1 : SPoint := ⟨"2024-06-10", "sale", 1, "USD", "s|2024-06-10", "https://u1", none⟩

/-- The second point of the C2 counterexample (its date smuggles the
separator). -/
def cq2 : SPoint := ⟨"2024-06-10|2024-06-10", "sale", 2, "USD", "s", "https://u2", none⟩

/-- C2 counterexample: grouping is done on the `|`-joined key, which is not
injective on `(sourceId, date)` pairs.  `cq1` is the only point of its
`(sourceId, date)` group, so the claim says it is left untouched, but the
code groups it with `cq2` and re-dates it (to 2024-06-09): no point with
`cq1`'s original `(sourceId, date)` pair survives in the output. -/
theorem c2_counterexample :
    (sdGroup [cq1, cq2] "s|2024-06-10" "2024-06-10").length = 1
  ∧ spreadSupplementaryDates [cq1, cq2]
      = some [⟨"2024-06-09", "sale", 1, "USD", "s|2024-06-10", "https://u1", none⟩,
              ⟨"2024-06-10", "sale", 2, "USD", "s", "https://u2", none⟩]
  ∧ ((spreadSupplementaryDates [cq1, cq2]).getD []).filter
        (fun p => p.sourceId == "s|2024-06-10" && p.date == "2024-06-10") = [] := by decide

/-- C2 amended: provided no sourceId contains the separator `|` (so the
group key is injective on `(sourceId, date)` pairs), and for a shared date
that parses as a calendar date with year ≥ 1 and a group of at most 366
points (the modelled date-arithmetic domain): a group of size 1 passes
through untouched, and a group of size N > 1 is re-dated so that, sorted by
ascending amount, its i-th member is assigned the calendar day N−1−i days
before the shared date — N consecutive days ending on the original date
(`prevDayIter 0`), pairwise distinct, ascending amount with ascending
date. -/
theorem c2_spread_correct (pts : List SPoint) (s d : String) (out : List SPoint)
    (base : Ymd)
    (hfree : ∀ p ∈ pts, '|' ∉ p.sourceId.data)
    (hspread : spreadSupplementaryDates pts = some out)
    (hbase : parseISODate d = some base)
    (hyear : 1 ≤ base.year)
    (hsize : (sdGroup pts s d).length ≤ 366) :
    ((sdGroup pts s d).length = 1 → ∀ p ∈ sdGroup pts s d, p ∈ out)
  ∧ (1 < (sdGroup pts s d).length →
      List.Sorted spAmountLe (sortByAmount (sdGroup pts s d))
    ∧ renderISODate (prevDayIter 0 base) = d
    ∧ (∀ i (hi : i < (sortByAmount (sdGroup pts s d)).length),
        { (sortByAmount (sdGroup pts s d)).get ⟨i, hi⟩ with
            date := renderISODate
              (prevDayIter ((sdGroup pts s d).length - 1 - i) base) } ∈ out)
    ∧ (∀ i j, i < (sdGroup pts s d).length → j < (sdGroup pts s d).length → i ≠ j →
        renderISODate (prevDayIter ((sdGroup pts s d).length - 1 - i) base)
          ≠ renderISODate (prevDayIter ((sdGroup pts s d).length - 1 - j) base))) := by
  by_cases hG : sdGroup pts s d = []
  · constructor
    · intro hlen1
      rw [hG] at hlen1
      simp at hlen1
    · intro hlen
      rw [hG] at hlen
      simp at hlen
  · obtain ⟨hs, hmem⟩ := sdGroup_mem_groupByKey hfree hG
    constructor
    · intro hlen1 p hp
      have hsg := spreadGroup_small (g := sdGroup pts s d) (by omega)
      exact group_sub_out hspread hmem hsg p hp
    · intro hlen
      have hlen' : ¬ (sdGroup pts s d).length ≤ 1 := by omega
      have hvalid := (parseISODate_valid hbase).1
      have h9999 := (parseISODate_valid hbase).2
      have hsg : spreadGroup (sdGroup pts s d)
          = some (redateGroup base (sdGroup pts s d).length 0
              (sortByAmount (sdGroup pts s d))) := by
        cases hgg : sdGroup pts s d with
        | nil => exact absurd hgg hG
        | cons hd tl =>
          have hhd : hd ∈ sdGroup pts s d := by
            rw [hgg]; exact List.mem_cons_self _ _
          have hhdd : hd.date = d := by
            have hx := (List.mem_filter.mp hhd).2
            simp only [Bool.and_eq_true, beq_iff_eq] at hx
            exact hx.2
          have hparse : parseISODate hd.date = some base := by
            rw [hhdd]; exact hbase
          rw [← hgg]
          exact spreadGroup_big hlen' hgg hparse
      have hsub := group_sub_out hspread hmem hsg
      refine ⟨List.sorted_insertionSort spAmountLe _, ?_, ?_, ?_⟩
      · rw [show prevDayIter 0 base = base from rfl]
        exact renderISODate_parseISODate hbase
      · intro i hi
        have hi2 : i < (sdGroup pts s d).length := by
          rw [← sortByAmount_length]; exact hi
        have hget := redateGroup_get base (sdGroup pts s d).length
          (sortByAmount (sdGroup pts s d)) 0 i hi
        rw [show (0 : Nat) + i = i from by omega] at hget
        rw [← hget]
        exact hsub _ (List.get_mem _ _ _)
      · intro i j hi hj hij hcontr
        have hk1 : (sdGroup pts s d).length - 1 - i ≤ 365 := by omega
        have hk2 : (sdGroup pts s d).length - 1 - j ≤ 365 := by omega
        have hkne : (sdGroup pts s d).length - 1 - i
            ≠ (sdGroup pts s d).length - 1 - j := by omega
        have hv1 : ValidYmd (prevDayIter ((sdGroup pts s d).length - 1 - i) base) :=
          prevDayIter_valid hvalid _
        have hy1 : (prevDayIter ((sdGroup pts s d).length - 1 - i) base).year ≤ 9999 :=
          le_trans (prevDayIter_year_le base _) h9999
        have hv2 : ValidYmd (prevDayIter ((sdGroup pts s d).length - 1 - j) base) :=
          prevDayIter_valid hvalid _
        have hy2 : (prevDayIter ((sdGroup pts s d).length - 1 - j) base).year ≤ 9999 :=
          le_trans (prevDayIter_year_le base _) h9999
        have hp1 := parseISODate_renderISODate hv1 hy1
        have hp2 := parseISODate_renderISODate hv2 hy2
        rw [hcontr] at hp1
        rw [hp2] at hp1
        exact prevDayIter_inj hvalid hyear hk2 hk1 (Ne.symm hkne) (Option.some.inj hp1)

/-- Three supplementary points sharing `(sourceId = X, date = 2024-06-10)`. -/
def spreadFixture : List SPoint :=
  [⟨"2024-06-10", "sale", 3, "USD", "X", "https://x3", none⟩,
   ⟨"2024-06-10", "sale", 1, "USD", "X", "https://x1", none⟩,
   ⟨"2024-06-10", "sale", 2, "USD", "X", "https://x2", none⟩]

/-- Their spread: three consecutive days ending 2024-06-10, ascending
amounts. -/
def spreadFixtureOut : List SPoint :=
  [⟨"2024-06-08", "sale", 1, "USD", "X", "https://x1", none⟩,
   ⟨"2024-06-09", "sale", 2, "USD", "X", "https://x2", none⟩,
   ⟨"2024-06-10", "sale", 3, "USD", "X", "https://x3", none⟩]

/-- C2 amended, witnessed on the spec's example of three points sharing
`(X, 2024-06-10)`. -/
theorem c2_spread_correct_witness :
    List.Sorted spAmountLe (sortByAmount (sdGroup spreadFixture "X" "2024-06-10"))
  ∧ renderISODate (prevDayIter 0 ⟨2024, 6, 10⟩) = "2024-06-10"
  ∧ renderISODate (prevDayIter ((sdGroup spreadFixture "X" "2024-06-10").length - 1 - 0)
        ⟨2024, 6, 10⟩)
      ≠ renderISODate (prevDayIter ((sdGroup spreadFixture "X" "2024-06-10").length - 1 - 2)
        ⟨2024, 6, 10⟩) := by
  have h := (c2_spread_correct spreadFixture "X" "2024-06-10" spreadFixtureOut
      ⟨2024, 6, 10⟩ (by decide) (by decide) (by decide) (by decide) (by decide)).2
    (by decide)
  exact ⟨h.1, h.2.1, h.2.2.2 0 2 (by decide) (by decide) (by decide)⟩

/-! ### C1 -/

/-- Rebuild the key from a tuple (so that `dedupKey = keyOfTuple ∘ dedupTuple`). -/
def keyOfTuple (t : String × String × Rat × String × String) : String :=
  t.1 ++ "|" ++ t.2.1 ++ "|" ++ ratKey t.2.2.1 ++ "|" ++ t.2.2.2.1 ++ "|" ++ t.2.2.2.2

theorem dedupKey_eq_keyOfTuple (p : Point) : dedupKey p = keyOfTuple (dedupTuple p) := rfl

/-- A point whose sourceId smuggles the key separator. -/
def cPa : Point := ⟨"2024-01-01", "sale", 100, "USD", 137, none, "X|Y", "https://a", none⟩

/-- A different tuple (currency `USD|X`, sourceId `Y`) whose joined key
collides with `cPa`'s. -/
def cPb : Point := ⟨"2024-01-01", "sale", 100, "USD|X", 137, none, "Y", "https://b", none⟩

/-- C1 counterexample: the dedup key is the `|`-joined string, which is not
injective on tuples.  `cPa` and `cPb` have different (date, kind, amount,
currency, sourceId) tuples but identical keys; with input `[cPa, cPb, cPb]`
the second and third points share a tuple, yet zero points with that tuple
survive (the first occurrence `cPb` is dropped against `cPa`), refuting
"exactly one survives and it is the first occurrence". -/
theorem c1_counterexample :
    dedupTuple cPa ≠ dedupTuple cPb
  ∧ dedupKey cPa = dedupKey cPb
  ∧ (([cPa, cPb, cPb] : List Point).filter
      (fun x => decide (dedupTuple x = dedupTuple cPb))).length = 2
  ∧ mergeSeries [] [] [cPa, cPb, cPb] = [cPa]
  ∧ ((mergeSeries [] [] [cPa, cPb, cPb]).filter
      (fun x => decide (dedupTuple x = dedupTuple cPb))).length = 0 := by decide

/-- C1 amended: the emitted series never contains two points with an
identical (date, kind, amount, currency, sourceId) tuple (this part is
unconditional); and provided the joined textual fields (date, kind,
currency) contain no `|` — so that the string key is injective on the
inputs' tuples — the points sharing any input tuple are deduplicated to
exactly the first occurrence in input order. -/
theorem c1_dedup_tuple_first_wins (p h s : List Point) (q : Point)
    (hfree : ∀ x ∈ p ++ h ++ s, BarFree x)
    (hq : q ∈ p ++ h ++ s) :
    ((mergeSeries p h s).map dedupTuple).Nodup
  ∧ (mergeSeries p h s).filter (fun x => decide (dedupTuple x = dedupTuple q))
      = ((p ++ h ++ s).filter (fun x => decide (dedupTuple x = dedupTuple q))).take 1 := by
  constructor
  · have hkeys : ((mergeSeries p h s).map dedupKey).Nodup := by
      have hperm := (sortByDate_perm (dedupe (p ++ h ++ s))).map dedupKey
      exact hperm.nodup_iff.mpr (dedupe_keys_nodup (p ++ h ++ s))
    have hrw : (mergeSeries p h s).map dedupKey
        = ((mergeSeries p h s).map dedupTuple).map keyOfTuple := by
      rw [List.map_map]
      rfl
    rw [hrw] at hkeys
    exact hkeys.of_map keyOfTuple
  · have hfq : BarFree q := hfree q hq
    have hcongr : ∀ (l : List Point), (∀ x ∈ l, x ∈ p ++ h ++ s) →
        l.filter (fun x => decide (dedupTuple x = dedupTuple q))
          = l.filter (fun x => dedupKey x == dedupKey q) := by
      intro l hl
      apply List.filter_congr
      intro x hx
      have hfx : BarFree x := hfree x (hl x hx)
      by_cases hxy : dedupTuple x = dedupTuple q
      · simp only [hxy, decide_eq_true_eq, beq_iff_eq]
        simp [dedupKey_eq_of_dedupTuple_eq hxy]
      · have hkey : ¬ dedupKey x = dedupKey q :=
          fun hk => hxy (dedupTuple_eq_of_dedupKey_eq hfx hfq hk)
        simp [hxy, hkey]
    have hout : ∀ x ∈ mergeSeries p h s, x ∈ p ++ h ++ s := by
      intro x hx
      rcases mergeSeries_mem hx with h1 | h1 | h1 <;> simp [h1]
    rw [hcongr _ hout, hcongr _ (fun x hx => hx)]
    have hperm : List.Perm
        ((mergeSeries p h s).filter (fun x => dedupKey x == dedupKey q))
        ((dedupe (p ++ h ++ s)).filter (fun x => dedupKey x == dedupKey q)) :=
      (sortByDate_perm (dedupe (p ++ h ++ s))).filter _
    rw [dedupe_filter (dedupKey q) (p ++ h ++ s)] at hperm
    cases hflt : (p ++ h ++ s).filter (fun x => dedupKey x == dedupKey q) with
    | nil =>
      rw [hflt] at hperm
      simp only [List.take_nil] at hperm ⊢
      exact List.perm_nil.mp hperm
    | cons a rest =>
      rw [hflt] at hperm
      simp only [List.take_succ_cons, List.take_zero] at hperm ⊢
      exact List.perm_singleton.mp hperm

/-- Two supplementary-style points sharing a tuple (different urls). -/
def w1Point : Point := ⟨"2024-03-01", "sale", 120, "USD", 160, none, "grailed", "https://g1", none⟩

/-- The later duplicate of `w1Point`'s tuple. -/
def w2Point : Point := ⟨"2024-03-01", "sale", 120, "USD", 160, none, "grailed", "https://g2", none⟩

/-- C1 amended, witnessed: with two separator-free input points sharing a
tuple, exactly the first survives. -/
theorem c1_dedup_tuple_first_wins_witness :
    ((mergeSeries [] [] [w1Point, w2Point]).map dedupTuple).Nodup
  ∧ (mergeSeries [] [] [w1Point, w2Point]).filter
        (fun x => decide (dedupTuple x = dedupTuple w2Point))
      = (([] ++ [] ++ [w1Point, w2Point] : List Point).filter
          (fun x => decide (dedupTuple x = dedupTuple w2Point))).take 1 :=
  c1_dedup_tuple_first_wins [] [] [w1Point, w2Point] w2Point (by decide) (by decide)

/-! ### C7 -/

/-- A world where the primary page fetch succeeds (a USD page), but the FX
service is down. -/
def envFxDown : Env :=
  { fetch := fun _ => .ok "\"priceCurrency\":\"USD\",\"price\":\"100\""
    fx := fun _ _ _ => .error "down"
    cdx := .error "down"
    supp := .ok [] }

/-- C7 counterexample: the claim says a run aborts only if the primary page
fetch fails.  Here the primary fetch succeeds, yet the run aborts, because
the uncaught FX lookup for the primary point (line 161) fails. -/
theorem c7_counterexample :
    (envFxDown.fetch ARCTERYX_URL).isOk = true
  ∧ (buildSeries envFxDown "2025-01-02" false).isOk = false := by decide

/-- C7 amended: a run aborts iff the primary page fetch fails, or the
(uncaught) FX lookup for the primary point fails when the parsed primary
currency is not CAD, or the supplementary store load fails, or the date
spread throws on a multi-point group with an unparseable shared date.
Snapshot-index, snapshot-page and per-point FX failures never abort the run
(they are absent from the right-hand side: the run then returns `ok`). -/
theorem c7_fatal_iff (env : Env) (today : String) (w : Bool) :
    (buildSeries env today w).isOk = false
  ↔ ((env.fetch ARCTERYX_URL).isOk = false
     ∨ ∃ html, env.fetch ARCTERYX_URL = .ok html
        ∧ ((¬ upperStr (parsePriceFromHtml html).currency = "CAD"
            ∧ (env.fx today (upperStr (parsePriceFromHtml html).currency) "CAD").isOk = false)
           ∨ ((upperStr (parsePriceFromHtml html).currency = "CAD"
               ∨ (env.fx today (upperStr (parsePriceFromHtml html).currency) "CAD").isOk = true)
              ∧ ((env.supp).isOk = false
                 ∨ ∃ supp, env.supp = .ok supp
                     ∧ spreadSupplementaryDates supp = none)))) := by
  unfold buildSeries
  cases hf : env.fetch ARCTERYX_URL with
  | error e => simp [Except.isOk, Except.toBool]
  | ok html =>
    dsimp only
    by_cases hcad : upperStr (parsePriceFromHtml html).currency = "CAD"
    · rw [if_pos hcad]
      dsimp only
      cases hs : env.supp with
      | error e => simp [Except.isOk, Except.toBool, hcad]
      | ok suppRaw =>
        dsimp only
        cases hsp : spreadSupplementaryDates suppRaw with
        | none => simp [Except.isOk, Except.toBool, hcad, hsp]
        | some spreadPts => simp [Except.isOk, Except.toBool, hcad, hsp]
    · rw [if_neg hcad]
      cases hr : env.fx today (upperStr (parsePriceFromHtml html).currency) "CAD" with
      | error e => simp [Except.isOk, Except.toBool, hcad, hr]
      | ok rate =>
        dsimp only
        cases hs : env.supp with
        | error e => simp [Except.isOk, Except.toBool, hcad, hr, hs]
        | ok suppRaw =>
          dsimp only
          cases hsp : spreadSupplementaryDates suppRaw with
          | none => simp [Except.isOk, Except.toBool, hcad, hr, hs, hsp]
          | some spreadPts => simp [Except.isOk, Except.toBool, hcad, hr, hs, hsp]

end VBH
